import Mathlib

/-!
# sync2.Cached: a lazily loaded, rate-limited memoization cell

Shallow embedding of `cached.go`.

* `time.Time` is an integer count of nanoseconds since the zero `time.Time`
  (so the zero value of the type is `0`): the second count times `10^9` plus
  the nanoseconds within the second. `time.Duration` is an integer count of
  nanoseconds. `Before` is `<`. `Add` adds, except that Go keeps the second
  count in an `int64` and saturates it: adding `5s` to an instant in the last
  five seconds of the range gives an instant of the last second. A monotonic
  clock reading, which `time.Now` attaches, is not modelled apart from the
  instant.
* `interface{}` and `error` values are `Option V` and `Option E`, `none`
  being Go's `nil`.
* `timeNow` and the fetcher `fn` are stateful nullary operations of the
  program; they are functions on an arbitrary world state `σ`.
* Every call of `timeNow` and of `fn` is recorded, in program order, in a
  trace of events, so that statements about how often the fetcher ran or
  which clock reading was stored can be expressed.
* The mutex only matters between goroutines; one call of `Get` is split
  into the part that runs under the read lock and the part that runs under
  the write lock, and `Get` runs the two back to back.
* For callers that interfere there are two finer models: sequences of
  critical sections (`Phase`), and goroutines that move one statement at a
  time under a scheduler, with the mutex as part of the state (`Sys`).
-/

namespace Sync2

/-! ## Data model -/

/-- The constant `time.Second`, a `time.Duration` in nanoseconds. -/
def Second : Int := 1000000000

/-- The constant `defaultInterval = 5 * time.Second`. -/
def defaultInterval : Int := 5 * Second

/-- The largest second count of a `time.Time`, `1<<63 - 1`. -/
def maxSec : Int := 9223372036854775807

/-- The last instant of `time.Time`: second `maxSec`, nanosecond `999999999`. -/
def maxTime : Int := maxSec * Second + (Second - 1)

/-- The function `addSec` of package `time` on the second count of an instant:
`sum := t.ext + d`, kept when `(sum > t.ext) == (d > 0)`, and else replaced by
`1<<63 - 1` for `d > 0` and by `-(1<<63 - 1)` for `d < 0`. In `int64` arithmetic
that test fails exactly when `sec` fits and the exact sum does not. -/
def addSec (sec d : Int) : Int :=
  if d > 0 ∧ sec ≤ maxSec ∧ maxSec < sec + d then maxSec
  else if d < 0 ∧ -maxSec - 1 ≤ sec ∧ sec + d < -maxSec - 1 then -maxSec
  else sec + d

/-- The method `time.Time.Add`: `dsec := int64(d / 1e9)` and
`nsec := t.nsec() + int32(d % 1e9)`, both truncating as Go does, a carry of the
nanoseconds into `dsec`, and then `t.addSec(dsec)`. -/
def Add (t d : Int) : Int :=
  if t % Second + Int.tmod d Second ≥ Second then
    addSec (t / Second) (Int.tdiv d Second + 1) * Second
      + (t % Second + Int.tmod d Second - Second)
  else if t % Second + Int.tmod d Second < 0 then
    addSec (t / Second) (Int.tdiv d Second - 1) * Second
      + (t % Second + Int.tmod d Second + Second)
  else
    addSec (t / Second) (Int.tdiv d Second) * Second + (t % Second + Int.tmod d Second)

/-- The struct `Cached` without its mutex. -/
structure Cached (V E : Type) where
  fetched : Bool
  lastFetch : Int
  val : Option V
  err : Option E
deriving DecidableEq, Repr

/-- The zero value of `Cached`, what `var cached Cached` declares. -/
def Cached.zero {V E : Type} : Cached V E :=
  { fetched := false, lastFetch := 0, val := none, err := none }

/-- The variable `timeNow`: a nullary operation on the world returning an instant. -/
abbrev Clock (σ : Type) := σ → Int × σ

/-- A fetcher `func() (interface{}, error)`: a nullary operation on the world. -/
abbrev Fetcher (σ V E : Type) := σ → (Option V × Option E) × σ

/-- What a call did to the outside world, in program order. -/
inductive Event (V E : Type) where
  | clock (t : Int)
  | fetch (v : Option V) (e : Option E)
deriving DecidableEq, Repr

/-- Result of evaluating `needsFetch`. -/
structure Check (σ V E : Type) where
  needed : Bool
  world : σ
  trace : List (Event V E)

/-- Result of one call of `Get`. -/
structure GetResult (σ V E : Type) where
  val : Option V
  err : Option E
  cell : Cached V E
  world : σ
  trace : List (Event V E)

/-! ## Operations -/

/-- The method `needsFetch`:
`!c.fetched && c.lastFetch.Add(defaultInterval).Before(timeNow())`.
The conjunction short-circuits, so the clock is read only when `fetched`
is false. -/
def needsFetch {σ V E : Type} (timeNow : Clock σ) (c : Cached V E) (w : σ) : Check σ V E :=
  if c.fetched then
    { needed := false, world := w, trace := [] }
  else
    { needed := decide (Add c.lastFetch defaultInterval < (timeNow w).1)
      world := (timeNow w).2
      trace := [Event.clock (timeNow w).1] }

/-- The part of `Get` that runs after `c.mux.Lock()`: the second evaluation of
`needsFetch`, and the fetch itself. -/
def getExclusive {σ V E : Type} (timeNow : Clock σ) (c : Cached V E) (fn : Fetcher σ V E)
    (w : σ) : GetResult σ V E :=
  let k := needsFetch timeNow c w
  if !k.needed then
    { val := c.val, err := c.err, cell := c, world := k.world, trace := k.trace }
  else
    let r := fn k.world
    let c1 : Cached V E := { c with val := r.1.1, err := r.1.2 }
    let c2 : Cached V E := { c1 with fetched := r.1.2.isNone }
    let t := timeNow r.2
    let c3 : Cached V E := { c2 with lastFetch := t.1 }
    { val := c3.val, err := c3.err, cell := c3, world := t.2
      trace := k.trace ++ [Event.fetch r.1.1 r.1.2, Event.clock t.1] }

/-- The method `Get`, run by one goroutine without interference: the first
evaluation of `needsFetch` under the read lock, and when it holds the
exclusive part. -/
def Get {σ V E : Type} (timeNow : Clock σ) (c : Cached V E) (fn : Fetcher σ V E)
    (w : σ) : GetResult σ V E :=
  let k := needsFetch timeNow c w
  if k.needed then
    let g := getExclusive timeNow c fn k.world
    { g with trace := k.trace ++ g.trace }
  else
    { val := c.val, err := c.err, cell := c, world := k.world, trace := k.trace }

/-- The method `Reset`: `c.fetched = false`. -/
def Reset {V E : Type} (c : Cached V E) : Cached V E :=
  { c with fetched := false }

/-! ## Sequences of calls -/

/-- One call on the cell. -/
inductive Op (σ V E : Type) where
  | get (fn : Fetcher σ V E)
  | reset

/-- Record of one executed call: what it returned (`none` for `Reset`, which
returns nothing), the cell and the world after it, and what it did. -/
structure Call (σ V E : Type) where
  ret : Option (Option V × Option E)
  cell : Cached V E
  world : σ
  trace : List (Event V E)

/-- Executes one call. `Reset` takes neither the clock nor a fetcher. -/
def exec {σ V E : Type} (timeNow : Clock σ) (op : Op σ V E) (c : Cached V E) (w : σ) :
    Call σ V E :=
  match op with
  | Op.get fn =>
    let g := Get timeNow c fn w
    { ret := some (g.val, g.err), cell := g.cell, world := g.world, trace := g.trace }
  | Op.reset =>
    { ret := none, cell := Reset c, world := w, trace := [] }

/-- Executes a sequence of calls one after the other, giving the record of each. -/
def run {σ V E : Type} (timeNow : Clock σ) :
    List (Op σ V E) → Cached V E → σ → List (Call σ V E)
  | [], _, _ => []
  | op :: ops, c, w =>
    exec timeNow op c w :: run timeNow ops (exec timeNow op c w).cell (exec timeNow op c w).world

/-- The cell after a sequence of calls. -/
def finalCell {σ V E : Type} (timeNow : Clock σ) :
    List (Op σ V E) → Cached V E → σ → Cached V E
  | [], c, _ => c
  | op :: ops, c, w =>
    finalCell timeNow ops (exec timeNow op c w).cell (exec timeNow op c w).world

/-- The world after a sequence of calls. -/
def finalWorld {σ V E : Type} (timeNow : Clock σ) :
    List (Op σ V E) → Cached V E → σ → σ
  | [], _, w => w
  | op :: ops, c, w =>
    finalWorld timeNow ops (exec timeNow op c w).cell (exec timeNow op c w).world

/-- All events of a list of executed calls, in order. -/
def history {σ V E : Type} : List (Call σ V E) → List (Event V E)
  | [] => []
  | k :: ks => k.trace ++ history ks

/-! ## Reading traces -/

/-- The results of the fetcher invocations of a trace, in order. -/
def fetches {V E : Type} : List (Event V E) → List (Option V × Option E)
  | [] => []
  | Event.fetch v e :: es => (v, e) :: fetches es
  | Event.clock _ :: es => fetches es

/-- The clock readings of a trace, in order. -/
def readings {V E : Type} : List (Event V E) → List Int
  | [] => []
  | Event.clock t :: es => t :: readings es
  | Event.fetch _ _ :: es => readings es

/-- The last element of a list, and `d` when the list is empty. -/
def lastOr {α : Type} (d : α) : List α → α
  | [] => d
  | x :: xs => lastOr x xs

/-- The result of the most recent of the fetcher invocations `rs`, and the zero
pair `(nil, nil)` when there was none. -/
def lastPair {V E : Type} (rs : List (Option V × Option E)) : Option V × Option E :=
  lastOr (none, none) rs

/-! ## Concrete clocks and fetchers -/

/-- A clock pinned at `t`, as the tests do with `timeNow = func() time.Time { return now }`. -/
def pinned (t : Int) : Clock Unit := fun w => (t, w)

/-- A clock that gives the readings `ts` one after the other, the world being
the number of readings taken so far; `0` once the list is used up. -/
def scripted (ts : List Int) : Clock Nat := fun i => (ts.getD i 0, i + 1)

/-- A fetcher that returns `(v, e)` and leaves the world alone. -/
def constFetcher {σ V E : Type} (v : Option V) (e : Option E) : Fetcher σ V E :=
  fun w => ((v, e), w)

/-! ## Critical sections of concurrent callers -/

/-- One critical section, run atomically under the mutex: the first evaluation
of `needsFetch` of a `Get` (under the read lock), the rest of a `Get` (under the
write lock), or the body of `Reset`. -/
inductive Phase (σ V E : Type) where
  | shared
  | exclusive (fn : Fetcher σ V E)
  | reset

/-- Whether a critical section is the body of `Reset`. -/
def Phase.isReset {σ V E : Type} : Phase σ V E → Bool
  | Phase.reset => true
  | _ => false

/-- Executes one critical section. The shared one returns to its caller only
when `needsFetch` is false; otherwise the caller goes on to the exclusive one. -/
def execPhase {σ V E : Type} (timeNow : Clock σ) (p : Phase σ V E) (c : Cached V E) (w : σ) :
    Call σ V E :=
  match p with
  | Phase.shared =>
    let k := needsFetch timeNow c w
    { ret := if k.needed then none else some (c.val, c.err)
      cell := c, world := k.world, trace := k.trace }
  | Phase.exclusive fn =>
    let g := getExclusive timeNow c fn w
    { ret := some (g.val, g.err), cell := g.cell, world := g.world, trace := g.trace }
  | Phase.reset =>
    { ret := none, cell := Reset c, world := w, trace := [] }

/-- The cell and the world after a sequence of critical sections. -/
def runPhases {σ V E : Type} (timeNow : Clock σ) :
    List (Phase σ V E) → Cached V E → σ → Cached V E × σ
  | [], c, w => (c, w)
  | p :: ps, c, w =>
    runPhases timeNow ps (execPhase timeNow p c w).cell (execPhase timeNow p c w).world

/-! ## Goroutines and the mutex

Any number of goroutines, named by `ι`, call `Get` and `Reset` on one cell. A
goroutine advances one statement at a time; the scheduler picks which one
moves. `sync.RWMutex` is modelled by its exclusion rule: `RLock` proceeds only
when no goroutine holds the write lock, `Lock` only when no goroutine holds
either lock, and a goroutine that cannot proceed stays where it is. The call
`fn()` takes two moves, its start and its return, so that other goroutines can
move while a fetcher is running. -/

/-- Where a goroutine stands: outside a call, or in front of a statement of
`Get` or of `Reset`. -/
inductive Pc (σ V E : Type) where
  /-- Outside a call. -/
  | idle
  /-- Before `c.mux.RLock()`. -/
  | getRLock (fn : Fetcher σ V E)
  /-- Before `if c.needsFetch()`, holding the read lock. -/
  | getCheck (fn : Fetcher σ V E)
  /-- Before `c.mux.RUnlock()` of the upgrade, holding the read lock. -/
  | getRUnlock (fn : Fetcher σ V E)
  /-- Before `c.mux.Lock()`. -/
  | getLock (fn : Fetcher σ V E)
  /-- Before `if !c.needsFetch()`, holding the write lock. -/
  | getRecheck (fn : Fetcher σ V E)
  /-- Before the call `fn()`, holding the write lock. -/
  | getCall (fn : Fetcher σ V E)
  /-- Inside `fn()`, holding the write lock. -/
  | getInFn (fn : Fetcher σ V E)
  /-- Before `c.fetched = c.err == nil`, holding the write lock. -/
  | getSetFetched
  /-- Before `c.lastFetch = timeNow()`, holding the write lock. -/
  | getSetLastFetch
  /-- Before `return c.val, c.err`, holding the write lock. -/
  | getReturnW
  /-- Before the deferred `c.mux.Unlock()`, the result being `r`. -/
  | getUnlock (r : Option V × Option E)
  /-- Before `return c.val, c.err`, holding the read lock. -/
  | getReturnR
  /-- Before the deferred `c.mux.RUnlock()`, the result being `r`. -/
  | getDeferredRUnlock (r : Option V × Option E)
  /-- Before `c.mux.Lock()` of `Reset`. -/
  | resetLock
  /-- Before `c.fetched = false`, holding the write lock. -/
  | resetSet
  /-- Before `c.mux.Unlock()` of `Reset`. -/
  | resetUnlock

/-- Whether a goroutine at this point is between `Lock()` and `Unlock()`. -/
def Pc.holdsW {σ V E : Type} : Pc σ V E → Bool
  | Pc.getRecheck _ => true
  | Pc.getCall _ => true
  | Pc.getInFn _ => true
  | Pc.getSetFetched => true
  | Pc.getSetLastFetch => true
  | Pc.getReturnW => true
  | Pc.getUnlock _ => true
  | Pc.resetSet => true
  | Pc.resetUnlock => true
  | _ => false

/-- Whether a goroutine at this point is running a fetcher. -/
def Pc.inFetcher {σ V E : Type} : Pc σ V E → Bool
  | Pc.getInFn _ => true
  | _ => false

/-- The cell with its mutex, the world, and where each goroutine stands. -/
structure Sys (ι σ V E : Type) where
  cell : Cached V E
  readers : Nat
  writer : Bool
  world : σ
  pcs : ι → Pc σ V E

/-- A cell with a free mutex and every goroutine outside a call. -/
def Sys.init {ι σ V E : Type} (c : Cached V E) (w : σ) : Sys ι σ V E :=
  { cell := c, readers := 0, writer := false, world := w, pcs := fun _ => Pc.idle }

/-- One move of goroutine `i`. An idle goroutine starts the call `next`. -/
def step {ι σ V E : Type} [DecidableEq ι] (timeNow : Clock σ) (s : Sys ι σ V E) (i : ι)
    (next : Op σ V E) : Sys ι σ V E :=
  match s.pcs i with
  | Pc.idle =>
    match next with
    | Op.get fn => { s with pcs := Function.update s.pcs i (Pc.getRLock fn) }
    | Op.reset => { s with pcs := Function.update s.pcs i Pc.resetLock }
  | Pc.getRLock fn =>
    if s.writer then s
    else { s with readers := s.readers + 1, pcs := Function.update s.pcs i (Pc.getCheck fn) }
  | Pc.getCheck fn =>
    { s with
      world := (needsFetch timeNow s.cell s.world).world
      pcs := Function.update s.pcs i
        (if (needsFetch timeNow s.cell s.world).needed then Pc.getRUnlock fn
          else Pc.getReturnR) }
  | Pc.getRUnlock fn =>
    { s with readers := s.readers - 1, pcs := Function.update s.pcs i (Pc.getLock fn) }
  | Pc.getLock fn =>
    if s.writer || s.readers != 0 then s
    else { s with writer := true, pcs := Function.update s.pcs i (Pc.getRecheck fn) }
  | Pc.getRecheck fn =>
    { s with
      world := (needsFetch timeNow s.cell s.world).world
      pcs := Function.update s.pcs i
        (if !(needsFetch timeNow s.cell s.world).needed then Pc.getReturnW
          else Pc.getCall fn) }
  | Pc.getCall fn =>
    { s with pcs := Function.update s.pcs i (Pc.getInFn fn) }
  | Pc.getInFn fn =>
    { s with
      cell := { s.cell with val := (fn s.world).1.1, err := (fn s.world).1.2 }
      world := (fn s.world).2
      pcs := Function.update s.pcs i Pc.getSetFetched }
  | Pc.getSetFetched =>
    { s with
      cell := { s.cell with fetched := s.cell.err.isNone }
      pcs := Function.update s.pcs i Pc.getSetLastFetch }
  | Pc.getSetLastFetch =>
    { s with
      cell := { s.cell with lastFetch := (timeNow s.world).1 }
      world := (timeNow s.world).2
      pcs := Function.update s.pcs i Pc.getReturnW }
  | Pc.getReturnW =>
    { s with pcs := Function.update s.pcs i (Pc.getUnlock (s.cell.val, s.cell.err)) }
  | Pc.getUnlock _ =>
    { s with writer := false, pcs := Function.update s.pcs i Pc.idle }
  | Pc.getReturnR =>
    { s with pcs := Function.update s.pcs i (Pc.getDeferredRUnlock (s.cell.val, s.cell.err)) }
  | Pc.getDeferredRUnlock _ =>
    { s with readers := s.readers - 1, pcs := Function.update s.pcs i Pc.idle }
  | Pc.resetLock =>
    if s.writer || s.readers != 0 then s
    else { s with writer := true, pcs := Function.update s.pcs i Pc.resetSet }
  | Pc.resetSet =>
    { s with cell := Reset s.cell, pcs := Function.update s.pcs i Pc.resetUnlock }
  | Pc.resetUnlock =>
    { s with writer := false, pcs := Function.update s.pcs i Pc.idle }

/-- The moves of a schedule, one after the other. -/
def runGo {ι σ V E : Type} [DecidableEq ι] (timeNow : Clock σ) :
    List (ι × Op σ V E) → Sys ι σ V E → Sys ι σ V E
  | [], s => s
  | m :: ms, s => runGo timeNow ms (step timeNow s m.1 m.2)

/-- At most one goroutine is between `Lock()` and `Unlock()`, and then the
mutex is write-locked. -/
def Sys.oneWriter {ι σ V E : Type} (s : Sys ι σ V E) : Prop :=
  (∀ i j, (s.pcs i).holdsW = true → (s.pcs j).holdsW = true → i = j) ∧
  ∀ i, (s.pcs i).holdsW = true → s.writer = true

/-! ## Adding the interval -/

/-- Adding `5s` to an instant: plain addition, unless the second count fits in
an `int64` and five seconds more do not, and then the second count becomes
`maxSec` and the nanoseconds stay. -/
theorem Add_defaultInterval (t : Int) :
    Add t defaultInterval =
      if t / Second ≤ maxSec ∧ maxSec < t / Second + 5 then maxSec * Second + t % Second
      else t + defaultInterval := by
  have hd : Int.tdiv defaultInterval Second = 5 := by decide
  have hm : Int.tmod defaultInterval Second = 0 := by decide
  have h0 : 0 ≤ t % Second := Int.emod_nonneg t (by decide)
  have h1 : t % Second < Second := Int.emod_lt_of_pos t (by decide)
  have hsplit : t / Second * Second + t % Second = t := by
    rw [mul_comm]; exact Int.ediv_add_emod t Second
  unfold Add
  rw [hd, hm, add_zero, if_neg (not_le.mpr h1), if_neg (not_lt.mpr h0)]
  unfold addSec
  by_cases hs : t / Second ≤ maxSec ∧ maxSec < t / Second + 5
  · rw [if_pos ⟨by decide, hs⟩, if_pos hs]
  · rw [if_neg (fun h => hs h.2), if_neg (fun h => by have := h.1; omega), if_neg hs]
    simp only [defaultInterval]
    linarith

/-- Adding the interval never gives an earlier instant. -/
theorem le_Add_defaultInterval (t : Int) : t ≤ Add t defaultInterval := by
  rw [Add_defaultInterval]
  have hsplit : t / Second * Second + t % Second = t := by
    rw [mul_comm]; exact Int.ediv_add_emod t Second
  have hS : (0 : Int) < Second := by decide
  split
  · rename_i h
    nlinarith [h.1]
  · simp only [defaultInterval]; linarith

/-- Adding the interval never gives more than plain addition. -/
theorem Add_defaultInterval_le (t : Int) : Add t defaultInterval ≤ t + defaultInterval := by
  rw [Add_defaultInterval]
  have hsplit : t / Second * Second + t % Second = t := by
    rw [mul_comm]; exact Int.ediv_add_emod t Second
  have hS : (0 : Int) < Second := by decide
  split
  · rename_i h
    simp only [defaultInterval]
    nlinarith [h.2]
  · exact le_refl _

/-- Adding the interval is plain addition when the sum is an instant of
`time.Time`. -/
theorem Add_defaultInterval_eq (t : Int) (h : t + 5 * Second ≤ maxTime) :
    Add t defaultInterval = t + defaultInterval := by
  rw [Add_defaultInterval]
  have hsplit : t / Second * Second + t % Second = t := by
    rw [mul_comm]; exact Int.ediv_add_emod t Second
  have h0 : 0 ≤ t % Second := Int.emod_nonneg t (by decide)
  have hS : (0 : Int) < Second := by decide
  split
  · rename_i hs
    exfalso
    simp only [maxTime] at h
    nlinarith [hs.2]
  · rfl

/-- In the last five seconds of the range the second count saturates: `5s`
added to second `2^63 - 3` gives second `2^63 - 1`. -/
theorem Add_defaultInterval_saturates :
    Add 9223372036854775805000000000 defaultInterval = 9223372036854775807000000000 := by
  decide

/-! ## One evaluation of `needsFetch` -/

theorem needsFetch_fetched {σ V E : Type} (timeNow : Clock σ) (c : Cached V E) (w : σ)
    (h : c.fetched = true) :
    needsFetch timeNow c w = { needed := false, world := w, trace := [] } := by
  simp [needsFetch, h]

theorem needsFetch_unfetched {σ V E : Type} (timeNow : Clock σ) (c : Cached V E) (w : σ)
    (h : c.fetched = false) :
    needsFetch timeNow c w =
      { needed := decide (Add c.lastFetch defaultInterval < (timeNow w).1)
        world := (timeNow w).2
        trace := [Event.clock (timeNow w).1] } := by
  simp [needsFetch, h]

/-! ## The three ways through `Get` -/

/-- The cell is marked fetched: `Get` returns at once, without reading the clock. -/
theorem Get_fetched {σ V E : Type} (timeNow : Clock σ) (c : Cached V E) (fn : Fetcher σ V E)
    (w : σ) (h : c.fetched = true) :
    Get timeNow c fn w = { val := c.val, err := c.err, cell := c, world := w, trace := [] } := by
  simp [Get, needsFetch_fetched timeNow c w h]

/-- The first evaluation of `needsFetch` fails on the interval: one clock reading. -/
theorem Get_early {σ V E : Type} (timeNow : Clock σ) (c : Cached V E) (fn : Fetcher σ V E)
    (w : σ) (h : c.fetched = false) (h1 : ¬ Add c.lastFetch defaultInterval < (timeNow w).1) :
    Get timeNow c fn w =
      { val := c.val, err := c.err, cell := c, world := (timeNow w).2
        trace := [Event.clock (timeNow w).1] } := by
  simp [Get, needsFetch_unfetched timeNow c w h, h1]

/-- The first evaluation holds and the second fails: two clock readings. -/
theorem Get_recheck {σ V E : Type} (timeNow : Clock σ) (c : Cached V E) (fn : Fetcher σ V E)
    (w : σ) (h : c.fetched = false) (h1 : Add c.lastFetch defaultInterval < (timeNow w).1)
    (h2 : ¬ Add c.lastFetch defaultInterval < (timeNow (timeNow w).2).1) :
    Get timeNow c fn w =
      { val := c.val, err := c.err, cell := c, world := (timeNow (timeNow w).2).2
        trace := [Event.clock (timeNow w).1, Event.clock (timeNow (timeNow w).2).1] } := by
  simp [Get, getExclusive, needsFetch_unfetched timeNow c _ h, h1, h2]

/-- Both evaluations hold: the fetcher runs and its result is stored. -/
theorem Get_fetch {σ V E : Type} (timeNow : Clock σ) (c : Cached V E) (fn : Fetcher σ V E)
    (w : σ) (h : c.fetched = false) (h1 : Add c.lastFetch defaultInterval < (timeNow w).1)
    (h2 : Add c.lastFetch defaultInterval < (timeNow (timeNow w).2).1) :
    Get timeNow c fn w =
      { val := (fn (timeNow (timeNow w).2).2).1.1
        err := (fn (timeNow (timeNow w).2).2).1.2
        cell :=
          { fetched := (fn (timeNow (timeNow w).2).2).1.2.isNone
            lastFetch := (timeNow (fn (timeNow (timeNow w).2).2).2).1
            val := (fn (timeNow (timeNow w).2).2).1.1
            err := (fn (timeNow (timeNow w).2).2).1.2 }
        world := (timeNow (fn (timeNow (timeNow w).2).2).2).2
        trace :=
          [Event.clock (timeNow w).1, Event.clock (timeNow (timeNow w).2).1,
            Event.fetch (fn (timeNow (timeNow w).2).2).1.1 (fn (timeNow (timeNow w).2).2).1.2,
            Event.clock (timeNow (fn (timeNow (timeNow w).2).2).2).1] } := by
  simp [Get, getExclusive, needsFetch_unfetched timeNow c _ h, h1, h2]

/-- The fetcher runs in `Get` only when the cell is unfetched and both
evaluations of `needsFetch` pass the interval test. -/
theorem Get_fetches_ne_nil {σ V E : Type} (timeNow : Clock σ) (c : Cached V E)
    (fn : Fetcher σ V E) (w : σ) (h : fetches (Get timeNow c fn w).trace ≠ []) :
    c.fetched = false ∧ Add c.lastFetch defaultInterval < (timeNow w).1 ∧
      Add c.lastFetch defaultInterval < (timeNow (timeNow w).2).1 := by
  cases hf : c.fetched with
  | true => rw [Get_fetched timeNow c fn w hf] at h; simp [fetches] at h
  | false =>
    by_cases h1 : Add c.lastFetch defaultInterval < (timeNow w).1
    · by_cases h2 : Add c.lastFetch defaultInterval < (timeNow (timeNow w).2).1
      · exact ⟨rfl, h1, h2⟩
      · rw [Get_recheck timeNow c fn w hf h1 h2] at h; simp [fetches] at h
    · rw [Get_early timeNow c fn w hf h1] at h; simp [fetches] at h

/-! ## Claims about a single call -/

/-- C1: `Get(fn)` invokes `fn` exactly once when the cell is not fetched and
`lastFetch.Add(5s)` is strictly before the clock reading at both evaluations of
`needsFetch`, and otherwise does not invoke it at all. When `lastFetch + 5s` is
an instant of `time.Time`, so that `Add` does not saturate, the same holds with
`lastFetch + 5s`; then an unfetched cell is not refetched when a deciding
reading is exactly `lastFetch + 5s`; and it is refetched when both deciding
readings are greater than `lastFetch + 5s`. -/
theorem Get_invokes_iff {σ V E : Type} (timeNow : Clock σ) (c : Cached V E)
    (fn : Fetcher σ V E) (w : σ) :
    (c.fetched = false ∧ Add c.lastFetch defaultInterval < (timeNow w).1 ∧
        Add c.lastFetch defaultInterval < (timeNow (timeNow w).2).1 →
      fetches (Get timeNow c fn w).trace = [(fn (timeNow (timeNow w).2).2).1]) ∧
    (¬ (c.fetched = false ∧ Add c.lastFetch defaultInterval < (timeNow w).1 ∧
        Add c.lastFetch defaultInterval < (timeNow (timeNow w).2).1) →
      fetches (Get timeNow c fn w).trace = []) ∧
    (c.lastFetch + 5 * Second ≤ maxTime →
      (c.fetched = false ∧ c.lastFetch + 5 * Second < (timeNow w).1 ∧
          c.lastFetch + 5 * Second < (timeNow (timeNow w).2).1 →
        fetches (Get timeNow c fn w).trace = [(fn (timeNow (timeNow w).2).2).1]) ∧
      (¬ (c.fetched = false ∧ c.lastFetch + 5 * Second < (timeNow w).1 ∧
          c.lastFetch + 5 * Second < (timeNow (timeNow w).2).1) →
        fetches (Get timeNow c fn w).trace = [])) ∧
    (c.lastFetch + 5 * Second ≤ maxTime → c.fetched = false →
      ((timeNow w).1 = c.lastFetch + 5 * Second ∨
        (timeNow (timeNow w).2).1 = c.lastFetch + 5 * Second) →
      fetches (Get timeNow c fn w).trace = []) ∧
    (c.fetched = false → c.lastFetch + 5 * Second < (timeNow w).1 →
      c.lastFetch + 5 * Second < (timeNow (timeNow w).2).1 →
      (fetches (Get timeNow c fn w).trace).length = 1) := by
  have pos : c.fetched = false ∧ Add c.lastFetch defaultInterval < (timeNow w).1 ∧
        Add c.lastFetch defaultInterval < (timeNow (timeNow w).2).1 →
      fetches (Get timeNow c fn w).trace = [(fn (timeNow (timeNow w).2).2).1] := by
    rintro ⟨hf, h1, h2⟩
    rw [Get_fetch timeNow c fn w hf h1 h2]
    simp [fetches]
  have neg : ¬ (c.fetched = false ∧ Add c.lastFetch defaultInterval < (timeNow w).1 ∧
        Add c.lastFetch defaultInterval < (timeNow (timeNow w).2).1) →
      fetches (Get timeNow c fn w).trace = [] := by
    intro hn
    by_contra hne
    exact hn (Get_fetches_ne_nil timeNow c fn w hne)
  have hle := Add_defaultInterval_le c.lastFetch
  have hI : defaultInterval = 5 * Second := rfl
  refine ⟨pos, neg, ?_, ?_, ?_⟩
  · intro hr
    have heq : Add c.lastFetch defaultInterval = c.lastFetch + 5 * Second :=
      Add_defaultInterval_eq c.lastFetch hr
    rw [heq] at pos neg
    exact ⟨pos, neg⟩
  · intro hr hf hb
    apply neg
    rintro ⟨-, h1, h2⟩
    rw [Add_defaultInterval_eq c.lastFetch hr, hI] at h1 h2
    rcases hb with hb | hb <;> omega
  · intro hf h1 h2
    rw [pos ⟨hf, by linarith, by linarith⟩]
    rfl

/-- C2: whenever `Get(fn)` invokes `fn` and `fn` returns `(v, e)`, the cell
afterwards holds `val = v` and `err = e`, `fetched` is true exactly when `e` is
absent, `lastFetch` is the clock reading taken after `fn` returned (the third
reading of the call, not one of the two deciding ones), and `Get` returns
`(v, e)`. -/
theorem Get_records_fetch {σ V E : Type} (timeNow : Clock σ) (c : Cached V E)
    (fn : Fetcher σ V E) (w : σ) (v : Option V) (e : Option E)
    (h : fetches (Get timeNow c fn w).trace = [(v, e)]) :
    (fn (timeNow (timeNow w).2).2).1 = (v, e) ∧
    (Get timeNow c fn w).cell.val = v ∧
    (Get timeNow c fn w).cell.err = e ∧
    ((Get timeNow c fn w).cell.fetched = true ↔ e = none) ∧
    (Get timeNow c fn w).cell.lastFetch = (timeNow (fn (timeNow (timeNow w).2).2).2).1 ∧
    (Get timeNow c fn w).trace =
      [Event.clock (timeNow w).1, Event.clock (timeNow (timeNow w).2).1, Event.fetch v e,
        Event.clock (timeNow (fn (timeNow (timeNow w).2).2).2).1] ∧
    ((Get timeNow c fn w).val, (Get timeNow c fn w).err) = (v, e) := by
  have hne : fetches (Get timeNow c fn w).trace ≠ [] := by rw [h]; simp
  obtain ⟨hf, h1, h2⟩ := Get_fetches_ne_nil timeNow c fn w hne
  rw [Get_fetch timeNow c fn w hf h1 h2] at h ⊢
  simp only [fetches, List.cons.injEq, and_true] at h
  have hv : (fn (timeNow (timeNow w).2).2).1.1 = v := congrArg Prod.fst h
  have he : (fn (timeNow (timeNow w).2).2).1.2 = e := congrArg Prod.snd h
  refine ⟨h, hv, he, ?_, rfl, ?_, ?_⟩
  · simp [he, Option.isNone_iff_eq_none]
  · simp [hv, he]
  · simp [hv, he]

/-- C1 at concrete inputs: a zero cell under a clock pinned one nanosecond past
`5s` fetches once, and under a clock pinned at exactly `5s` does not fetch. -/
theorem Get_invokes_iff_witness :
    fetches (Get (pinned 5000000001) (Cached.zero : Cached Nat Nat)
      (constFetcher (some 7) none) ()).trace = [(some 7, none)] ∧
    fetches (Get (pinned 5000000000) (Cached.zero : Cached Nat Nat)
      (constFetcher (some 7) none) ()).trace = [] :=
  ⟨((Get_invokes_iff (pinned 5000000001) (Cached.zero : Cached Nat Nat)
      (constFetcher (some 7) none) ()).2.2.1 (by decide)).1 ⟨rfl, by decide, by decide⟩,
    (Get_invokes_iff (pinned 5000000000) (Cached.zero : Cached Nat Nat)
      (constFetcher (some 7) none) ()).2.2.2.1 (by decide) rfl (Or.inl (by decide))⟩

/-- C2 at a concrete input: the deciding readings are `6s` and `7s`, the
fetcher fails with error `3`, and the reading after it is `9s`. -/
theorem Get_records_fetch_witness :
    fetches (Get (scripted [6000000000, 7000000000, 9000000000])
      (Cached.zero : Cached Nat Nat) (constFetcher none (some 3)) 0).trace = [(none, some 3)] ∧
    (Get (scripted [6000000000, 7000000000, 9000000000])
      (Cached.zero : Cached Nat Nat) (constFetcher none (some 3)) 0).cell.err = some 3 ∧
    (Get (scripted [6000000000, 7000000000, 9000000000])
      (Cached.zero : Cached Nat Nat) (constFetcher none (some 3)) 0).cell.lastFetch =
      9000000000 :=
  ⟨by decide,
    (Get_records_fetch (scripted [6000000000, 7000000000, 9000000000])
      (Cached.zero : Cached Nat Nat) (constFetcher none (some 3)) 0 none (some 3)
      (by decide)).2.2.1,
    (Get_records_fetch (scripted [6000000000, 7000000000, 9000000000])
      (Cached.zero : Cached Nat Nat) (constFetcher none (some 3)) 0 none (some 3)
      (by decide)).2.2.2.2.1⟩

/-- In the last five seconds of the range `Get` refetches early: a failure
recorded at second `2^63 - 3` is refetched by a `Get` at second `2^63 - 1` and
`5ns`, two seconds later, because `lastFetch.Add(5s)` is second `2^63 - 1`
sharp. -/
theorem Get_refetches_early_at_range_end :
    ¬ (9223372036854775805000000000 : Int) + 5 * Second < 9223372036854775807000000005 ∧
    fetches (Get (pinned 9223372036854775807000000005)
      ({ fetched := false, lastFetch := 9223372036854775805000000000, val := none,
         err := some 3 } : Cached Nat Nat)
      (constFetcher (some 7) none) ()).trace = [(some 7, none)] := by
  decide

/-! ## Case analysis and traces -/

/-- To prove something of the result of `Get`, prove it on each of its four paths. -/
theorem Get_elim {σ V E : Type} (timeNow : Clock σ) (c : Cached V E) (fn : Fetcher σ V E)
    (w : σ) (P : GetResult σ V E → Prop)
    (hfetched : c.fetched = true →
      P { val := c.val, err := c.err, cell := c, world := w, trace := [] })
    (hearly : c.fetched = false → ¬ Add c.lastFetch defaultInterval < (timeNow w).1 →
      P { val := c.val, err := c.err, cell := c, world := (timeNow w).2
          trace := [Event.clock (timeNow w).1] })
    (hrecheck : c.fetched = false → Add c.lastFetch defaultInterval < (timeNow w).1 →
      ¬ Add c.lastFetch defaultInterval < (timeNow (timeNow w).2).1 →
      P { val := c.val, err := c.err, cell := c, world := (timeNow (timeNow w).2).2
          trace := [Event.clock (timeNow w).1, Event.clock (timeNow (timeNow w).2).1] })
    (hfetch : c.fetched = false → Add c.lastFetch defaultInterval < (timeNow w).1 →
      Add c.lastFetch defaultInterval < (timeNow (timeNow w).2).1 →
      P { val := (fn (timeNow (timeNow w).2).2).1.1
          err := (fn (timeNow (timeNow w).2).2).1.2
          cell :=
            { fetched := (fn (timeNow (timeNow w).2).2).1.2.isNone
              lastFetch := (timeNow (fn (timeNow (timeNow w).2).2).2).1
              val := (fn (timeNow (timeNow w).2).2).1.1
              err := (fn (timeNow (timeNow w).2).2).1.2 }
          world := (timeNow (fn (timeNow (timeNow w).2).2).2).2
          trace :=
            [Event.clock (timeNow w).1, Event.clock (timeNow (timeNow w).2).1,
              Event.fetch (fn (timeNow (timeNow w).2).2).1.1 (fn (timeNow (timeNow w).2).2).1.2,
              Event.clock (timeNow (fn (timeNow (timeNow w).2).2).2).1] }) :
    P (Get timeNow c fn w) := by
  cases hf : c.fetched with
  | true => rw [Get_fetched timeNow c fn w hf]; exact hfetched hf
  | false =>
    by_cases h1 : Add c.lastFetch defaultInterval < (timeNow w).1
    · by_cases h2 : Add c.lastFetch defaultInterval < (timeNow (timeNow w).2).1
      · rw [Get_fetch timeNow c fn w hf h1 h2]; exact hfetch hf h1 h2
      · rw [Get_recheck timeNow c fn w hf h1 h2]; exact hrecheck hf h1 h2
    · rw [Get_early timeNow c fn w hf h1]; exact hearly hf h1

theorem fetches_append {V E : Type} (a b : List (Event V E)) :
    fetches (a ++ b) = fetches a ++ fetches b := by
  induction a with
  | nil => rfl
  | cons x xs ih => cases x <;> simp [fetches, ih]

theorem readings_append {V E : Type} (a b : List (Event V E)) :
    readings (a ++ b) = readings a ++ readings b := by
  induction a with
  | nil => rfl
  | cons x xs ih => cases x <;> simp [readings, ih]

theorem history_append {σ V E : Type} (a b : List (Call σ V E)) :
    history (a ++ b) = history a ++ history b := by
  induction a with
  | nil => rfl
  | cons x xs ih => simp [history, ih]

/-! ## The flag implies an absent error -/

/-- One call keeps the property that a fetched cell holds no error. -/
theorem exec_fetched_err {σ V E : Type} (timeNow : Clock σ) (op : Op σ V E) (c : Cached V E)
    (w : σ) (h : c.fetched = true → c.err = none) :
    (exec timeNow op c w).cell.fetched = true → (exec timeNow op c w).cell.err = none := by
  cases op with
  | reset => simp [exec, Reset]
  | get fn =>
    simp only [exec]
    refine Get_elim timeNow c fn w
      (fun g => g.cell.fetched = true → g.cell.err = none) ?_ ?_ ?_ ?_
    · intro _; exact h
    · intro _ _; exact h
    · intro _ _ _; exact h
    · intro _ _ _ hx
      exact Option.isNone_iff_eq_none.mp hx

/-- A sequence of calls keeps the property that a fetched cell holds no error. -/
theorem finalCell_fetched_err {σ V E : Type} (timeNow : Clock σ) (ops : List (Op σ V E)) :
    ∀ (c : Cached V E) (w : σ), (c.fetched = true → c.err = none) →
      (finalCell timeNow ops c w).fetched = true → (finalCell timeNow ops c w).err = none := by
  induction ops with
  | nil => intro c w h; exact h
  | cons op ops ih =>
    intro c w h
    exact ih _ _ (exec_fetched_err timeNow op c w h)

/-- Any number of `Get`s on a cell marked fetched return the stored pair, do
nothing to the outside world and leave the cell as it is. -/
theorem run_gets_fetched {σ V E : Type} (timeNow : Clock σ) (c : Cached V E)
    (h : c.fetched = true) (fns : List (Fetcher σ V E)) (w : σ) :
    run timeNow (fns.map Op.get) c w =
      List.replicate fns.length
        { ret := some (c.val, c.err), cell := c, world := w, trace := [] } := by
  induction fns with
  | nil => rfl
  | cons fn fns ih =>
    simp only [List.map_cons, run, exec, Get_fetched timeNow c fn w h, List.length_cons,
      List.replicate_succ]
    rw [ih]

/-- C3: in a cell whose most recent fetch succeeded with no `Reset` since, that
is in every state reached from the zero state in which `fetched` is true, any
number of consecutive `Get`s, with any fetchers, any clock and any state of the
world, each return the stored value with an absent error, invoke no fetcher
(they do not even read the clock) and leave the cell unchanged. -/
theorem Get_fetched_forever {σ τ V E : Type} (timeNow : Clock σ) (ops : List (Op σ V E))
    (w0 : σ) (h : (finalCell timeNow ops Cached.zero w0).fetched = true)
    (clock : Clock τ) (fns : List (Fetcher τ V E)) (w : τ) :
    run clock (fns.map Op.get) (finalCell timeNow ops Cached.zero w0) w =
      List.replicate fns.length
        { ret := some ((finalCell timeNow ops Cached.zero w0).val, none)
          cell := finalCell timeNow ops Cached.zero w0
          world := w
          trace := [] } := by
  have he : (finalCell timeNow ops Cached.zero w0).err = none :=
    finalCell_fetched_err timeNow ops Cached.zero w0 (by simp [Cached.zero]) h
  rw [run_gets_fetched clock _ h fns w, he]

/-- C3 at a concrete input: after one successful fetch at `6s`, two `Get`s at
`1000s` with other fetchers return the stored value `7`. -/
theorem Get_fetched_forever_witness :
    (finalCell (pinned 6000000000) [Op.get (constFetcher (some 7) none)]
      (Cached.zero : Cached Nat Nat) ()).fetched = true ∧
    run (pinned 1000000000000)
      ([constFetcher (some 8) none, constFetcher none (some 9)].map Op.get)
      (finalCell (pinned 6000000000) [Op.get (constFetcher (some 7) none)]
        (Cached.zero : Cached Nat Nat) ()) () =
      List.replicate 2
        { ret := some ((finalCell (pinned 6000000000) [Op.get (constFetcher (some 7) none)]
            (Cached.zero : Cached Nat Nat) ()).val, none)
          cell := finalCell (pinned 6000000000) [Op.get (constFetcher (some 7) none)]
            (Cached.zero : Cached Nat Nat) ()
          world := ()
          trace := [] } :=
  ⟨by decide,
    Get_fetched_forever (pinned 6000000000) [Op.get (constFetcher (some 7) none)] ()
      (by decide) (pinned 1000000000000)
      [constFetcher (some 8) none, constFetcher none (some 9)] ()⟩

/-! ## The deferral window -/

/-- A call all of whose clock readings are at most `lastFetch.Add(5s)` invokes no
fetcher, keeps `lastFetch`, `val` and `err`, and if it is a `Get` returns the
stored pair. -/
theorem exec_quiet {σ V E : Type} (timeNow : Clock σ) (op : Op σ V E) (c : Cached V E) (w : σ)
    (h : ∀ t ∈ readings (exec timeNow op c w).trace, t ≤ Add c.lastFetch defaultInterval) :
    fetches (exec timeNow op c w).trace = [] ∧
    (exec timeNow op c w).cell.lastFetch = c.lastFetch ∧
    (exec timeNow op c w).cell.val = c.val ∧
    (exec timeNow op c w).cell.err = c.err ∧
    ∀ p, (exec timeNow op c w).ret = some p → p = (c.val, c.err) := by
  cases op with
  | reset => simp [exec, Reset, fetches]
  | get fn =>
    simp only [exec] at h ⊢
    revert h
    refine Get_elim timeNow c fn w
      (fun g => (∀ t ∈ readings g.trace, t ≤ Add c.lastFetch defaultInterval) →
        fetches g.trace = [] ∧ g.cell.lastFetch = c.lastFetch ∧ g.cell.val = c.val ∧
          g.cell.err = c.err ∧ ∀ p, some (g.val, g.err) = some p → p = (c.val, c.err))
      ?_ ?_ ?_ ?_
    · intro _ _; simp [fetches]
    · intro _ _ _; simp [fetches]
    · intro _ _ _ _; simp [fetches]
    · intro _ h1 _ h
      have := h (timeNow w).1 (by simp [readings])
      exact absurd h1 (not_lt.mpr this)

/-- A sequence of calls all of whose clock readings are at most
`lastFetch.Add(5s)` invokes no fetcher, and each `Get` in it returns the pair the
cell held at the start. -/
theorem run_quiet {σ V E : Type} (timeNow : Clock σ) (ops : List (Op σ V E)) :
    ∀ (c : Cached V E) (w : σ),
      (∀ t ∈ readings (history (run timeNow ops c w)), t ≤ Add c.lastFetch defaultInterval) →
      fetches (history (run timeNow ops c w)) = [] ∧
      ∀ k ∈ run timeNow ops c w, ∀ p, k.ret = some p → p = (c.val, c.err) := by
  induction ops with
  | nil => intro c w _; simp [run, history, fetches]
  | cons op ops ih =>
    intro c w h
    simp only [run, history, readings_append, List.mem_append] at h
    obtain ⟨hf, hl, hv, he, hp⟩ := exec_quiet timeNow op c w (fun t ht => h t (Or.inl ht))
    have hrest := ih (exec timeNow op c w).cell (exec timeNow op c w).world
      (fun t ht => by rw [hl]; exact h t (Or.inr ht))
    rw [hv, he] at hrest
    refine ⟨?_, ?_⟩
    · simp only [run, history, fetches_append, hf, hrest.1, List.append_nil]
    · intro k hk p hkp
      simp only [run, List.mem_cons] at hk
      rcases hk with hk | hk
      · subst hk; exact hp p hkp
      · exact hrest.2 k hk p hkp

/-- The pair stored by a `Get` that ran the fetcher is the pair the fetcher gave. -/
theorem Get_cell_of_fetches {σ V E : Type} (timeNow : Clock σ) (c : Cached V E)
    (fn : Fetcher σ V E) (w : σ) (v : Option V) (e : Option E)
    (h : fetches (Get timeNow c fn w).trace = [(v, e)]) :
    (Get timeNow c fn w).cell.val = v ∧ (Get timeNow c fn w).cell.err = e := by
  revert h
  refine Get_elim timeNow c fn w
    (fun g => fetches g.trace = [(v, e)] → g.cell.val = v ∧ g.cell.err = e) ?_ ?_ ?_ ?_
  · intro _ h; simp [fetches] at h
  · intro _ _ h; simp [fetches] at h
  · intro _ _ _ h; simp [fetches] at h
  · intro _ _ _ h
    simp only [fetches, List.cons.injEq, and_true] at h
    exact ⟨congrArg Prod.fst h, congrArg Prod.snd h⟩

/-- C4: after a `Get` that invoked the fetcher, got `(v, e)` and recorded
`lastFetch = t`, `t + 5s` being an instant of `time.Time`, every following
finite sequence of `Get` and `Reset` calls (any fetchers, any number of
`Reset`s) all of whose clock readings are at most `t + 5s` invokes no fetcher,
and every `Get` in it returns exactly `(v, e)`. -/
theorem deferral_window {σ V E : Type} (timeNow : Clock σ) (c : Cached V E)
    (fn : Fetcher σ V E) (w : σ) (v : Option V) (e : Option E)
    (hfetch : fetches (Get timeNow c fn w).trace = [(v, e)])
    (hrange : (Get timeNow c fn w).cell.lastFetch + 5 * Second ≤ maxTime)
    (ops : List (Op σ V E))
    (hclock : ∀ t ∈ readings (history
        (run timeNow ops (Get timeNow c fn w).cell (Get timeNow c fn w).world)),
      t ≤ (Get timeNow c fn w).cell.lastFetch + 5 * Second) :
    fetches (history
      (run timeNow ops (Get timeNow c fn w).cell (Get timeNow c fn w).world)) = [] ∧
    ∀ k ∈ run timeNow ops (Get timeNow c fn w).cell (Get timeNow c fn w).world,
      ∀ p, k.ret = some p → p = (v, e) := by
  obtain ⟨hv, he⟩ := Get_cell_of_fetches timeNow c fn w v e hfetch
  have heq : Add (Get timeNow c fn w).cell.lastFetch defaultInterval =
      (Get timeNow c fn w).cell.lastFetch + 5 * Second :=
    Add_defaultInterval_eq _ hrange
  have := run_quiet timeNow ops (Get timeNow c fn w).cell (Get timeNow c fn w).world
    (by rw [heq]; exact hclock)
  rw [hv, he] at this
  exact this

/-- C4 at a concrete input: a failing fetch is recorded at `6s`; the following
`Get`, `Reset`, `Get` read the clock at `7s` and at `11s = 6s + 5s`. -/
theorem deferral_window_witness :
    fetches (history
      (run (scripted [6000000000, 6000000000, 6000000000, 7000000000, 11000000000])
        [Op.get (constFetcher (some 1) none), Op.reset, Op.get (constFetcher (some 2) none)]
        (Get (scripted [6000000000, 6000000000, 6000000000, 7000000000, 11000000000])
          (Cached.zero : Cached Nat Nat) (constFetcher none (some 3)) 0).cell
        (Get (scripted [6000000000, 6000000000, 6000000000, 7000000000, 11000000000])
          (Cached.zero : Cached Nat Nat) (constFetcher none (some 3)) 0).world)) = [] ∧
    ∀ k ∈ run (scripted [6000000000, 6000000000, 6000000000, 7000000000, 11000000000])
        [Op.get (constFetcher (some 1) none), Op.reset, Op.get (constFetcher (some 2) none)]
        (Get (scripted [6000000000, 6000000000, 6000000000, 7000000000, 11000000000])
          (Cached.zero : Cached Nat Nat) (constFetcher none (some 3)) 0).cell
        (Get (scripted [6000000000, 6000000000, 6000000000, 7000000000, 11000000000])
          (Cached.zero : Cached Nat Nat) (constFetcher none (some 3)) 0).world,
      ∀ p, k.ret = some p → p = (none, some 3) :=
  deferral_window (scripted [6000000000, 6000000000, 6000000000, 7000000000, 11000000000])
    (Cached.zero : Cached Nat Nat) (constFetcher none (some 3)) 0 none (some 3) (by decide)
    (by decide)
    [Op.get (constFetcher (some 1) none), Op.reset, Op.get (constFetcher (some 2) none)]
    (by decide)

/-! ## Counting fetches -/

/-- Under a non-decreasing clock a call either invokes no fetcher and keeps
`lastFetch`, or invokes one and moves `lastFetch` past `lastFetch.Add(5s)`, to
one of its own clock readings. -/
theorem exec_advance {σ V E : Type} (timeNow : Clock σ) (op : Op σ V E) (c : Cached V E)
    (w : σ) (h : (readings (exec timeNow op c w).trace).Pairwise (fun a b => a ≤ b)) :
    (fetches (exec timeNow op c w).trace = [] ∧
        (exec timeNow op c w).cell.lastFetch = c.lastFetch) ∨
    ((fetches (exec timeNow op c w).trace).length = 1 ∧
        Add c.lastFetch defaultInterval < (exec timeNow op c w).cell.lastFetch ∧
        (exec timeNow op c w).cell.lastFetch ∈ readings (exec timeNow op c w).trace) := by
  cases op with
  | reset => left; simp [exec, Reset, fetches]
  | get fn =>
    simp only [exec] at h ⊢
    revert h
    refine Get_elim timeNow c fn w
      (fun g => (readings g.trace).Pairwise (fun a b => a ≤ b) →
        (fetches g.trace = [] ∧ g.cell.lastFetch = c.lastFetch) ∨
        ((fetches g.trace).length = 1 ∧ Add c.lastFetch defaultInterval < g.cell.lastFetch ∧
          g.cell.lastFetch ∈ readings g.trace)) ?_ ?_ ?_ ?_
    · intro _ _; left; simp [fetches]
    · intro _ _ _; left; simp [fetches]
    · intro _ _ _ _; left; simp [fetches]
    · intro _ h1 _ h
      right
      simp only [readings, List.pairwise_cons, List.mem_cons] at h
      have h13 := h.1 (timeNow (fn (timeNow (timeNow w).2).2).2).1 (Or.inr (Or.inl rfl))
      refine ⟨by simp [fetches], lt_of_lt_of_le h1 h13, by simp [readings]⟩

/-- Under a non-decreasing clock that never reads more than `t1`, where
`lastFetch + 5s` and `t1 + 5s` are instants of `time.Time`, `n ≥ 1` fetches
need `lastFetch + n * 5s < t1`. -/
theorem run_fetches_spacing {σ V E : Type} (timeNow : Clock σ) (t1 : Int)
    (ht1 : t1 + 5 * Second ≤ maxTime) (ops : List (Op σ V E)) :
    ∀ (c : Cached V E) (w : σ), c.lastFetch + 5 * Second ≤ maxTime →
      (readings (history (run timeNow ops c w))).Pairwise (fun a b => a ≤ b) →
      (∀ t ∈ readings (history (run timeNow ops c w)), t ≤ t1) →
      (fetches (history (run timeNow ops c w))).length = 0 ∨
      c.lastFetch + ((fetches (history (run timeNow ops c w))).length : Int) * defaultInterval
        < t1 := by
  induction ops with
  | nil => intro c w _ _ _; left; simp [run, history, fetches]
  | cons op ops ih =>
    intro c w hc hs hb
    simp only [run, history, readings_append, List.pairwise_append, List.mem_append] at hs hb
    simp only [run, history, fetches_append, List.length_append]
    rcases exec_advance timeNow op c w hs.1 with ⟨hf, hl⟩ | ⟨hf, hl, hm⟩
    · have hrest := ih (exec timeNow op c w).cell (exec timeNow op c w).world
        (by rw [hl]; exact hc) hs.2.1 (fun t ht => hb t (Or.inr ht))
      rw [hl] at hrest
      rw [hf]
      simpa using hrest
    · right
      rw [hf]
      have hle := hb _ (Or.inl hm)
      rw [Add_defaultInterval_eq c.lastFetch hc] at hl
      have hrest := ih (exec timeNow op c w).cell (exec timeNow op c w).world
        (by linarith) hs.2.1 (fun t ht => hb t (Or.inr ht))
      rcases hrest with h0 | hlt
      · rw [h0]; push_cast; linarith
      · push_cast; linarith

/-- Under a non-decreasing clock whose readings lie in `[t0, t1]`, `t1 + 5s`
being an instant of `time.Time`, all fetches after the first fit, `5s` apart,
strictly inside `t1 - t0`. -/
theorem run_fetches_bound {σ V E : Type} (timeNow : Clock σ) (t0 t1 : Int)
    (ht1 : t1 + 5 * Second ≤ maxTime) (ops : List (Op σ V E)) :
    ∀ (c : Cached V E) (w : σ),
      (readings (history (run timeNow ops c w))).Pairwise (fun a b => a ≤ b) →
      (∀ t ∈ readings (history (run timeNow ops c w)), t0 ≤ t ∧ t ≤ t1) →
      (fetches (history (run timeNow ops c w))).length ≤ 1 ∨
      (((fetches (history (run timeNow ops c w))).length : Int) - 1) * defaultInterval
        < t1 - t0 := by
  induction ops with
  | nil => intro c w _ _; left; simp [run, history, fetches]
  | cons op ops ih =>
    intro c w hs hb
    simp only [run, history, readings_append, List.pairwise_append, List.mem_append] at hs hb
    simp only [run, history, fetches_append, List.length_append]
    rcases exec_advance timeNow op c w hs.1 with ⟨hf, -⟩ | ⟨hf, -, hm⟩
    · rw [hf]
      simpa using ih (exec timeNow op c w).cell (exec timeNow op c w).world hs.2.1
        (fun t ht => hb t (Or.inr ht))
    · rw [hf]
      have hge := (hb _ (Or.inl hm)).1
      have hle := (hb _ (Or.inl hm)).2
      rcases run_fetches_spacing timeNow t1 ht1 ops (exec timeNow op c w).cell
          (exec timeNow op c w).world (by linarith) hs.2.1
          (fun t ht => (hb t (Or.inr ht)).2) with h0 | hlt
      · left; omega
      · right; push_cast; linarith

/-- C5: for every finite sequence of `Get` and `Reset` calls on a cell starting
in the zero state, under a non-decreasing clock whose readings all lie in
`[t0, t1]`, `t1 + 5s` being an instant of `time.Time`, the number of fetcher
invocations is at most `⌈(t1 - t0) / 5s⌉ + 1`. -/
theorem fetches_le_ceil {σ V E : Type} (timeNow : Clock σ) (ops : List (Op σ V E)) (w : σ)
    (t0 t1 : Int) (h01 : t0 ≤ t1) (hend : t1 + 5 * Second ≤ maxTime)
    (hmono : (readings (history (run timeNow ops (Cached.zero : Cached V E) w))).Pairwise
      (fun a b => a ≤ b))
    (hrange : ∀ t ∈ readings (history (run timeNow ops (Cached.zero : Cached V E) w)),
      t0 ≤ t ∧ t ≤ t1) :
    ((fetches (history (run timeNow ops (Cached.zero : Cached V E) w))).length : Int) ≤
      Int.ceil (((t1 - t0 : Int) : ℚ) / ((5 * Second : Int) : ℚ)) + 1 := by
  have hI : (0 : ℚ) < ((5 * Second : Int) : ℚ) := by norm_num [Second]
  have hnn : (0 : Int) ≤ Int.ceil (((t1 - t0 : Int) : ℚ) / ((5 * Second : Int) : ℚ)) := by
    apply Int.ceil_nonneg
    apply div_nonneg _ hI.le
    exact_mod_cast sub_nonneg.mpr h01
  rcases run_fetches_bound timeNow t0 t1 hend ops Cached.zero w hmono hrange with h | h
  · have : ((fetches (history (run timeNow ops (Cached.zero : Cached V E) w))).length : Int)
        ≤ 1 := by exact_mod_cast h
    linarith
  · have hq : (((fetches (history (run timeNow ops (Cached.zero : Cached V E) w))).length
        : Int) - 1 : ℚ) < ((t1 - t0 : Int) : ℚ) / ((5 * Second : Int) : ℚ) := by
      rw [lt_div_iff₀ hI]
      have : defaultInterval = 5 * Second := rfl
      rw [this] at h
      exact_mod_cast h
    have hc := lt_of_lt_of_le hq (Int.le_ceil _)
    have : ((fetches (history (run timeNow ops (Cached.zero : Cached V E) w))).length : Int)
        - 1 < Int.ceil (((t1 - t0 : Int) : ℚ) / ((5 * Second : Int) : ℚ)) := by
      exact_mod_cast hc
    linarith

/-- C5 at a concrete input: failing fetches at `100s` and, after a `Get` at
`103s` and a `Reset`, at `106s`, under readings between `100s` and `107s`. -/
theorem fetches_le_ceil_witness :
    ((fetches (history (run
        (scripted [100000000000, 100000000000, 100000000000, 103000000000, 106000000000,
          106000000000, 107000000000])
        [Op.get (constFetcher none (some 3)), Op.get (constFetcher none (some 3)), Op.reset,
          Op.get (constFetcher none (some 3))]
        (Cached.zero : Cached Nat Nat) 0))).length : Int) ≤
      Int.ceil (((107000000000 - 100000000000 : Int) : ℚ) / ((5 * Second : Int) : ℚ)) + 1 :=
  fetches_le_ceil
    (scripted [100000000000, 100000000000, 100000000000, 103000000000, 106000000000,
      106000000000, 107000000000])
    [Op.get (constFetcher none (some 3)), Op.get (constFetcher none (some 3)), Op.reset,
      Op.get (constFetcher none (some 3))]
    0 100000000000 107000000000 (by decide) (by decide) (by decide) (by decide)

/-! ## What `Get` returns -/

theorem lastOr_append {α : Type} (a b : List α) :
    ∀ d : α, lastOr d (a ++ b) = lastOr (lastOr d a) b := by
  induction a with
  | nil => intro d; rfl
  | cons x xs ih => intro d; simp [lastOr, ih]

theorem lastOr_mem {α : Type} (l : List α) :
    ∀ d : α, (l = [] ∧ lastOr d l = d) ∨ lastOr d l ∈ l := by
  induction l with
  | nil => intro d; left; exact ⟨rfl, rfl⟩
  | cons x xs ih =>
    intro d
    right
    rcases ih x with ⟨hnil, hd⟩ | hmem
    · simp [lastOr, hd]
    · simp only [lastOr, List.mem_cons]; exact Or.inr hmem

/-- After a call the cell holds the result of the call's fetcher invocation, or
what it held before when there was none; a `Get` returns the pair the cell
holds after it. -/
theorem exec_pair {σ V E : Type} (timeNow : Clock σ) (op : Op σ V E) (c : Cached V E) (w : σ) :
    ((exec timeNow op c w).cell.val, (exec timeNow op c w).cell.err) =
        lastOr (c.val, c.err) (fetches (exec timeNow op c w).trace) ∧
    ∀ p, (exec timeNow op c w).ret = some p →
      p = lastOr (c.val, c.err) (fetches (exec timeNow op c w).trace) := by
  cases op with
  | reset => simp [exec, Reset, fetches, lastOr]
  | get fn =>
    simp only [exec]
    refine Get_elim timeNow c fn w
      (fun g => (g.cell.val, g.cell.err) = lastOr (c.val, c.err) (fetches g.trace) ∧
        ∀ p, some (g.val, g.err) = some p → p = lastOr (c.val, c.err) (fetches g.trace))
      ?_ ?_ ?_ ?_
    · intro _; simp [fetches, lastOr]
    · intro _ _; simp [fetches, lastOr]
    · intro _ _ _; simp [fetches, lastOr]
    · intro _ _ _; simp [fetches, lastOr]

/-- The pair returned by the `i`-th call of a sequence is the result of the most
recent fetcher invocation among the calls up to and including it, or the pair
the cell held at the start when there was none. -/
theorem run_pair {σ V E : Type} (timeNow : Clock σ) (ops : List (Op σ V E)) :
    ∀ (c : Cached V E) (w : σ) (i : Nat) (k : Call σ V E),
      (run timeNow ops c w)[i]? = some k → ∀ p, k.ret = some p →
      p = lastOr (c.val, c.err)
        (fetches (history ((run timeNow ops c w).take (i + 1)))) := by
  induction ops with
  | nil => intro c w i k hk; simp [run] at hk
  | cons op ops ih =>
    intro c w i k hk p hp
    cases i with
    | zero =>
      simp only [run, List.getElem?_cons_zero, Option.some.injEq] at hk
      subst hk
      simp only [run, List.take_succ_cons, List.take_zero, history, List.append_nil]
      exact (exec_pair timeNow op c w).2 p hp
    | succ j =>
      simp only [run, List.getElem?_cons_succ] at hk
      simp only [run, List.take_succ_cons, history, fetches_append, lastOr_append]
      rw [← (exec_pair timeNow op c w).1]
      exact ih _ _ j k hk p hp

/-- C6 fails on the code under an early clock: on a zero cell, under a clock
pinned at the zero instant, the first `Get`, called with a fetcher that would
return `(7, nil)`, returns the pair `(nil, nil)` without invoking the fetcher,
so the pair it returns was produced by no fetcher invocation. -/
theorem returned_pair_not_fetched :
    (run (pinned 0) [Op.get (constFetcher (some 7) none)]
      (Cached.zero : Cached Nat Nat) ()).map (fun k => (k.ret, k.trace)) =
      [(some (none, none), [Event.clock 0])] ∧
    ¬ ∀ (k : Call Unit Nat Nat) (p : Option Nat × Option Nat),
      (run (pinned 0) [Op.get (constFetcher (some 7) none)]
        (Cached.zero : Cached Nat Nat) ())[0]? = some k →
      k.ret = some p →
      p ∈ fetches (history ((run (pinned 0) [Op.get (constFetcher (some 7) none)]
        (Cached.zero : Cached Nat Nat) ()).take 1)) := by
  refine ⟨by decide, ?_⟩
  intro h
  have hmem := h
    { ret := some (none, none), cell := Cached.zero, world := (), trace := [Event.clock 0] }
    (none, none) rfl rfl
  revert hmem
  decide

/-- Whatever the clock, the pair returned by a `Get` of a sequence of calls on
a zero cell is the pair returned by the most recent fetcher invocation at or
before that `Get`, or it is the zero pair `(nil, nil)` and no fetcher has been
invoked up to and including that `Get`. -/
theorem returned_pair_fetched_or_zero {σ V E : Type} (timeNow : Clock σ)
    (ops : List (Op σ V E)) (w : σ) (i : Nat) (k : Call σ V E) (p : Option V × Option E)
    (hk : (run timeNow ops Cached.zero w)[i]? = some k) (hp : k.ret = some p) :
    (p ∈ fetches (history ((run timeNow ops Cached.zero w).take (i + 1))) ∧
        p = lastPair (fetches (history ((run timeNow ops Cached.zero w).take (i + 1))))) ∨
    (fetches (history ((run timeNow ops Cached.zero w).take (i + 1))) = [] ∧
        p = (none, none)) := by
  have h : p = lastOr (none, none)
      (fetches (history ((run timeNow ops Cached.zero w).take (i + 1)))) :=
    run_pair timeNow ops Cached.zero w i k hk p hp
  rcases lastOr_mem (fetches (history ((run timeNow ops Cached.zero w).take (i + 1))))
      ((none, none) : Option V × Option E) with ⟨hnil, hd⟩ | hmem
  · right
    exact ⟨hnil, by rw [h]; exact hd⟩
  · left
    exact ⟨by rw [h]; exact hmem, h⟩

/-- Under a clock all of whose readings are later than `5s` after the zero
instant, a cell that has never fetched fetches at its first `Get`: up to and
including any `Get` of a sequence of calls a fetcher has been invoked. -/
theorem run_fetched_before {σ V E : Type} (timeNow : Clock σ)
    (hlate : ∀ w, 5 * Second < (timeNow w).1) (ops : List (Op σ V E)) :
    ∀ (c : Cached V E) (w : σ) (i : Nat) (k : Call σ V E) (p : Option V × Option E),
      c.fetched = false → c.lastFetch = 0 →
      (run timeNow ops c w)[i]? = some k → k.ret = some p →
      fetches (history ((run timeNow ops c w).take (i + 1))) ≠ [] := by
  induction ops with
  | nil => intro c w i k p _ _ hk; simp [run] at hk
  | cons op ops ih =>
    intro c w i k p hf hl hk hp
    cases op with
    | reset =>
      cases i with
      | zero =>
        simp only [run, List.getElem?_cons_zero, Option.some.injEq] at hk
        subst hk
        simp [exec] at hp
      | succ j =>
        simp only [run, List.getElem?_cons_succ] at hk
        simp only [run, List.take_succ_cons, history, fetches_append]
        have := ih (exec timeNow Op.reset c w).cell (exec timeNow Op.reset c w).world j k p
          (by simp [exec, Reset]) (by simpa [exec, Reset] using hl) hk hp
        simpa [exec, fetches] using this
    | get fn =>
      have h0 : Add c.lastFetch defaultInterval = 5 * Second := by
        rw [hl]; decide
      have hg := Get_fetch timeNow c fn w hf (by rw [h0]; exact hlate _)
        (by rw [h0]; exact hlate _)
      simp only [run, List.take_succ_cons, history, fetches_append, exec, hg]
      simp [fetches]

/-- Under a clock all of whose readings are later than `5s` after the zero
instant, every pair returned by a `Get` of a sequence of calls on a zero cell is
the pair returned by a fetcher invocation of the sequence at or before that
`Get`. -/
theorem returned_pair_fetched_of_late_clock {σ V E : Type} (timeNow : Clock σ)
    (hlate : ∀ w, 5 * Second < (timeNow w).1)
    (ops : List (Op σ V E)) (w : σ) (i : Nat) (k : Call σ V E) (p : Option V × Option E)
    (hk : (run timeNow ops Cached.zero w)[i]? = some k) (hp : k.ret = some p) :
    p ∈ fetches (history ((run timeNow ops Cached.zero w).take (i + 1))) := by
  have h : p = lastOr (none, none)
      (fetches (history ((run timeNow ops Cached.zero w).take (i + 1)))) :=
    run_pair timeNow ops Cached.zero w i k hk p hp
  have hne := run_fetched_before timeNow hlate ops Cached.zero w i k p rfl rfl hk hp
  rcases lastOr_mem (fetches (history ((run timeNow ops Cached.zero w).take (i + 1))))
      ((none, none) : Option V × Option E) with ⟨hnil, -⟩ | hmem
  · exact absurd hnil hne
  · rw [h]; exact hmem

/-- C7: for every finite sequence of `Get` and `Reset` calls on a cell starting
in the zero state, the error returned by each `Get` is the error returned by
the most recent fetcher invocation up to and including that `Get`, unchanged;
it is absent when no fetcher has been invoked yet; and an error that `Get`
returns was returned by a fetcher invocation of the sequence. -/
theorem returned_err_is_last {σ V E : Type} (timeNow : Clock σ)
    (ops : List (Op σ V E)) (w : σ) (i : Nat) (k : Call σ V E) (p : Option V × Option E)
    (hk : (run timeNow ops Cached.zero w)[i]? = some k) (hp : k.ret = some p) :
    p.2 = (lastPair (fetches (history ((run timeNow ops Cached.zero w).take (i + 1))))).2 ∧
    (fetches (history ((run timeNow ops Cached.zero w).take (i + 1))) = [] → p.2 = none) ∧
    ∀ e, p.2 = some e →
      ∃ v, (v, some e) ∈ fetches (history ((run timeNow ops Cached.zero w).take (i + 1))) := by
  have h : p = lastOr (none, none)
      (fetches (history ((run timeNow ops Cached.zero w).take (i + 1)))) :=
    run_pair timeNow ops Cached.zero w i k hk p hp
  refine ⟨by rw [h]; rfl, ?_, ?_⟩
  · intro hnil
    rw [h, hnil]
    rfl
  · intro e he
    rcases lastOr_mem (fetches (history ((run timeNow ops Cached.zero w).take (i + 1))))
        ((none, none) : Option V × Option E) with ⟨-, hd⟩ | hmem
    · rw [h, hd] at he
      simp at he
    · rw [← h] at hmem
      exact ⟨p.1, by rw [← he]; exact hmem⟩

/-- C7 at a concrete input: a fetch fails with error `3` at `6s`; the second
`Get`, with a fetcher that would succeed, still returns error `3`. -/
theorem returned_err_is_last_witness :
    ((none, some 3) : Option Nat × Option Nat).2 =
      (lastPair (fetches (history ((run (pinned 6000000000)
        [Op.get (constFetcher none (some 3)), Op.get (constFetcher (some 7) none)]
        (Cached.zero : Cached Nat Nat) ()).take (1 + 1))))).2 :=
  (returned_err_is_last (pinned 6000000000)
    [Op.get (constFetcher none (some 3)), Op.get (constFetcher (some 7) none)] () 1
    { ret := some (none, some 3)
      cell := { fetched := false, lastFetch := 6000000000, val := none, err := some 3 }
      world := (), trace := [Event.clock 6000000000] }
    (none, some 3) rfl rfl).1

/-- C8: `Reset` sets `fetched` to false and leaves `lastFetch`, `val` and `err`
as they were; as a call it invokes no fetcher, does not read the clock, and
leaves the world as it was, whatever the clock is. -/
theorem Reset_frame {σ V E : Type} (timeNow : Clock σ) (c : Cached V E) (w : σ) :
    (Reset c).fetched = false ∧ (Reset c).lastFetch = c.lastFetch ∧
    (Reset c).val = c.val ∧ (Reset c).err = c.err ∧
    (exec timeNow (Op.reset : Op σ V E) c w).cell = Reset c ∧
    fetches (exec timeNow (Op.reset : Op σ V E) c w).trace = [] ∧
    readings (exec timeNow (Op.reset : Op σ V E) c w).trace = [] ∧
    (exec timeNow (Op.reset : Op σ V E) c w).world = w :=
  ⟨rfl, rfl, rfl, rfl, rfl, rfl, rfl, rfl⟩

/-- C9 fails on the code at the boundary `now - lastFetch = 5s`: a zero cell
fetches successfully at `100s`, is `Reset`, and the next `Get` reads the clock
at `105s`. That `Get` does not invoke its fetcher: the only fetcher invocation
of the run is the first one, and the last `Get` returns the old value `1`. -/
theorem Reset_then_Get_at_five_seconds :
    (finalCell (scripted [100000000000, 100000000000, 100000000000, 105000000000])
      [Op.get (constFetcher (some 1) none), Op.reset]
      (Cached.zero : Cached Nat Nat) 0).lastFetch = 100000000000 ∧
    (105000000000 : Int) - 100000000000 ≥ 5 * Second ∧
    (run (scripted [100000000000, 100000000000, 100000000000, 105000000000])
      [Op.get (constFetcher (some 1) none), Op.reset, Op.get (constFetcher (some 2) none)]
      (Cached.zero : Cached Nat Nat) 0).map (fun k => (k.ret, k.trace)) =
      [(some (some 1, none),
          [Event.clock 100000000000, Event.clock 100000000000, Event.fetch (some 1) none,
            Event.clock 100000000000]),
        (none, []),
        (some (some 1, none), [Event.clock 105000000000])] := by
  decide

/-- C10: for a cell whose most recent fetch was recorded at `lastFetch = t`, and
which is unfetched because that fetch failed, or has been `Reset` since, a
`Get(fn)` whose deciding clock readings are strictly greater than `t + 5s`
invokes `fn` exactly once, returns its result, and stores it in place of the
previous pair. -/
theorem Get_refetches {σ V E : Type} (timeNow : Clock σ) (c : Cached V E)
    (fn : Fetcher σ V E) (w : σ)
    (h1 : c.lastFetch + 5 * Second < (timeNow w).1)
    (h2 : c.lastFetch + 5 * Second < (timeNow (timeNow w).2).1) :
    (c.fetched = false →
      fetches (Get timeNow c fn w).trace = [(fn (timeNow (timeNow w).2).2).1] ∧
      ((Get timeNow c fn w).val, (Get timeNow c fn w).err) = (fn (timeNow (timeNow w).2).2).1 ∧
      ((Get timeNow c fn w).cell.val, (Get timeNow c fn w).cell.err) =
        (fn (timeNow (timeNow w).2).2).1) ∧
    (fetches (Get timeNow (Reset c) fn w).trace = [(fn (timeNow (timeNow w).2).2).1] ∧
      ((Get timeNow (Reset c) fn w).val, (Get timeNow (Reset c) fn w).err) =
        (fn (timeNow (timeNow w).2).2).1 ∧
      ((Get timeNow (Reset c) fn w).cell.val, (Get timeNow (Reset c) fn w).cell.err) =
        (fn (timeNow (timeNow w).2).2).1) := by
  have hle := Add_defaultInterval_le c.lastFetch
  have hI : defaultInterval = 5 * Second := rfl
  have a1 : Add c.lastFetch defaultInterval < (timeNow w).1 := by linarith
  have a2 : Add c.lastFetch defaultInterval < (timeNow (timeNow w).2).1 := by linarith
  constructor
  · intro hf
    rw [Get_fetch timeNow c fn w hf a1 a2]
    simp [fetches]
  · rw [Get_fetch timeNow (Reset c) fn w rfl a1 a2]
    simp [fetches]

/-- C10 at a concrete input: a cell holding a failure recorded at `100s`, and a
`Get` at `106s` whose fetcher succeeds with `7`. -/
theorem Get_refetches_witness :
    fetches (Get (pinned 106000000000)
      ({ fetched := false, lastFetch := 100000000000, val := none, err := some 3 } :
        Cached Nat Nat)
      (constFetcher (some 7) none) ()).trace = [(some 7, none)] ∧
    ((Get (pinned 106000000000)
      ({ fetched := false, lastFetch := 100000000000, val := none, err := some 3 } :
        Cached Nat Nat)
      (constFetcher (some 7) none) ()).val,
     (Get (pinned 106000000000)
      ({ fetched := false, lastFetch := 100000000000, val := none, err := some 3 } :
        Cached Nat Nat)
      (constFetcher (some 7) none) ()).err) = (some 7, none) ∧
    ((Get (pinned 106000000000)
      ({ fetched := false, lastFetch := 100000000000, val := none, err := some 3 } :
        Cached Nat Nat)
      (constFetcher (some 7) none) ()).cell.val,
     (Get (pinned 106000000000)
      ({ fetched := false, lastFetch := 100000000000, val := none, err := some 3 } :
        Cached Nat Nat)
      (constFetcher (some 7) none) ()).cell.err) = (some 7, none) :=
  (Get_refetches (pinned 106000000000)
    ({ fetched := false, lastFetch := 100000000000, val := none, err := some 3 } :
      Cached Nat Nat)
    (constFetcher (some 7) none) () (by decide) (by decide)).1 rfl

/-! ## Two calls under a pinned clock -/

theorem defaultInterval_pos : 0 < defaultInterval := by decide

/-- Under a clock pinned at `t`, a `Get` on a cell that is fetched, or whose
`lastFetch.Add(5s)` is not before `t`, invokes no fetcher and returns the stored
pair. -/
theorem Get_pinned_quiet {σ V E : Type} (timeNow : Clock σ) (t : Int)
    (hpin : ∀ w, (timeNow w).1 = t) (d : Cached V E) (fn : Fetcher σ V E) (w : σ)
    (hd : d.fetched = true ∨ ¬ Add d.lastFetch defaultInterval < t) :
    fetches (Get timeNow d fn w).trace = [] ∧ (Get timeNow d fn w).val = d.val ∧
      (Get timeNow d fn w).err = d.err := by
  refine Get_elim timeNow d fn w
    (fun g => fetches g.trace = [] ∧ g.val = d.val ∧ g.err = d.err) ?_ ?_ ?_ ?_
  · intro _; simp [fetches]
  · intro _ _; simp [fetches]
  · intro _ _ _; simp [fetches]
  · intro hf h1 _
    rw [hpin] at h1
    rcases hd with hd | hd
    · rw [hf] at hd; cases hd
    · exact absurd h1 hd

/-- C11: for every cell state, every clock pinned at one reading and every pair
of fetchers, of two consecutive `Get` calls the second never invokes its
fetcher, so that at most one fetcher invocation happens in total, and the
second returns exactly the pair the first returned. -/
theorem pinned_two_gets {σ V E : Type} (timeNow : Clock σ) (t : Int)
    (hpin : ∀ w, (timeNow w).1 = t) (c : Cached V E) (fn1 fn2 : Fetcher σ V E) (w : σ) :
    fetches (Get timeNow (Get timeNow c fn1 w).cell fn2 (Get timeNow c fn1 w).world).trace
      = [] ∧
    (fetches (history (run timeNow [Op.get fn1, Op.get fn2] c w))).length ≤ 1 ∧
    ((Get timeNow (Get timeNow c fn1 w).cell fn2 (Get timeNow c fn1 w).world).val,
      (Get timeNow (Get timeNow c fn1 w).cell fn2 (Get timeNow c fn1 w).world).err) =
      ((Get timeNow c fn1 w).val, (Get timeNow c fn1 w).err) := by
  have key : (fetches (Get timeNow c fn1 w).trace).length ≤ 1 ∧
      (Get timeNow c fn1 w).val = (Get timeNow c fn1 w).cell.val ∧
      (Get timeNow c fn1 w).err = (Get timeNow c fn1 w).cell.err ∧
      ((Get timeNow c fn1 w).cell.fetched = true ∨
        ¬ Add (Get timeNow c fn1 w).cell.lastFetch defaultInterval < t) := by
    refine Get_elim timeNow c fn1 w
      (fun g => (fetches g.trace).length ≤ 1 ∧ g.val = g.cell.val ∧ g.err = g.cell.err ∧
        (g.cell.fetched = true ∨ ¬ Add g.cell.lastFetch defaultInterval < t)) ?_ ?_ ?_ ?_
    · intro hf
      exact ⟨by simp [fetches], rfl, rfl, Or.inl hf⟩
    · intro _ h1
      rw [hpin] at h1
      exact ⟨by simp [fetches], rfl, rfl, Or.inr h1⟩
    · intro _ h1 h2
      rw [hpin] at h1 h2
      exact absurd h1 h2
    · intro _ _ _
      refine ⟨by simp [fetches], rfl, rfl, Or.inr ?_⟩
      simp only [hpin]
      exact not_lt.mpr (le_Add_defaultInterval t)
  obtain ⟨h2f, h2v, h2e⟩ := Get_pinned_quiet timeNow t hpin (Get timeNow c fn1 w).cell fn2
    (Get timeNow c fn1 w).world key.2.2.2
  refine ⟨h2f, ?_, ?_⟩
  · simp only [run, exec, history, fetches_append, List.length_append, h2f, List.append_nil,
      List.length_nil, fetches]
    simpa using key.1
  · rw [h2v, h2e, key.2.1, key.2.2.1]

/-- C11 at a concrete input: a zero cell under a clock pinned at `6s`, the first
fetcher failing and the second one succeeding. -/
theorem pinned_two_gets_witness :
    fetches (Get (pinned 6000000000)
      (Get (pinned 6000000000) (Cached.zero : Cached Nat Nat) (constFetcher none (some 3)) ()).cell
      (constFetcher (some 7) none)
      (Get (pinned 6000000000) (Cached.zero : Cached Nat Nat)
        (constFetcher none (some 3)) ()).world).trace = [] :=
  (pinned_two_gets (pinned 6000000000) 6000000000 (fun _ => rfl)
    (Cached.zero : Cached Nat Nat) (constFetcher none (some 3)) (constFetcher (some 7) none)
    ()).1

/-! ## Invariants of reachable states -/

theorem run_append {σ V E : Type} (timeNow : Clock σ) (a b : List (Op σ V E)) :
    ∀ (c : Cached V E) (w : σ),
      run timeNow (a ++ b) c w =
        run timeNow a c w ++ run timeNow b (finalCell timeNow a c w) (finalWorld timeNow a c w) := by
  induction a with
  | nil => intro c w; rfl
  | cons op ops ih => intro c w; simp [run, finalCell, finalWorld, ih]

theorem finalCell_append {σ V E : Type} (timeNow : Clock σ) (a b : List (Op σ V E)) :
    ∀ (c : Cached V E) (w : σ),
      finalCell timeNow (a ++ b) c w =
        finalCell timeNow b (finalCell timeNow a c w) (finalWorld timeNow a c w) := by
  induction a with
  | nil => intro c w; rfl
  | cons op ops ih => intro c w; simp [finalCell, finalWorld, ih]

/-- Every state passed through by a sequence of calls keeps the property that a
fetched cell holds no error. -/
theorem run_fetched_err {σ V E : Type} (timeNow : Clock σ) (ops : List (Op σ V E)) :
    ∀ (c : Cached V E) (w : σ), (c.fetched = true → c.err = none) →
      ∀ k ∈ run timeNow ops c w, k.cell.fetched = true → k.cell.err = none := by
  induction ops with
  | nil => intro c w _ k hk; simp [run] at hk
  | cons op ops ih =>
    intro c w h k hk
    simp only [run, List.mem_cons] at hk
    rcases hk with hk | hk
    · subst hk; exact exec_fetched_err timeNow op c w h
    · exact ih _ _ (exec_fetched_err timeNow op c w h) k hk

/-- C12: in every state reached from the zero state by a finite sequence of
`Get` and `Reset` calls, with any fetchers and any clock, the final state and
every state in between, `fetched = true` implies that the stored error is
absent. -/
theorem fetched_implies_no_err {σ V E : Type} (timeNow : Clock σ) (ops : List (Op σ V E))
    (w : σ) :
    ((finalCell timeNow ops Cached.zero w).fetched = true →
      (finalCell timeNow ops Cached.zero w).err = none) ∧
    ∀ k ∈ run timeNow ops Cached.zero w, k.cell.fetched = true → k.cell.err = none := by
  have h0 : (Cached.zero : Cached V E).fetched = true → (Cached.zero : Cached V E).err = none :=
    fun _ => rfl
  exact ⟨finalCell_fetched_err timeNow ops Cached.zero w h0,
    run_fetched_err timeNow ops Cached.zero w h0⟩

/-- C12 at a concrete input: a failed fetch at `6s`, then a successful one at
`20s`, leaves a fetched cell without error. -/
theorem fetched_implies_no_err_witness :
    (finalCell (scripted [6000000000, 6000000000, 6000000000, 20000000000, 20000000000,
        20000000000])
      [Op.get (constFetcher none (some 3)), Op.get (constFetcher (some 7) none)]
      (Cached.zero : Cached Nat Nat) 0).err = none :=
  (fetched_implies_no_err
    (scripted [6000000000, 6000000000, 6000000000, 20000000000, 20000000000, 20000000000])
    [Op.get (constFetcher none (some 3)), Op.get (constFetcher (some 7) none)] 0).1 (by decide)

/-- C13: in every state reached from the zero state by a sequence of calls, a
further `Get` or `Reset`, the clock readings of the whole run being
non-decreasing, leaves `lastFetch` greater than or equal to what it was before
the call. -/
theorem lastFetch_monotone {σ V E : Type} (timeNow : Clock σ) (ops : List (Op σ V E))
    (op : Op σ V E) (w : σ)
    (hmono : (readings (history (run timeNow (ops ++ [op]) (Cached.zero : Cached V E) w))).Pairwise
      (fun a b => a ≤ b)) :
    (finalCell timeNow ops (Cached.zero : Cached V E) w).lastFetch ≤
      (finalCell timeNow (ops ++ [op]) (Cached.zero : Cached V E) w).lastFetch := by
  rw [run_append, history_append, readings_append, List.pairwise_append] at hmono
  rw [finalCell_append]
  have hop : (readings (exec timeNow op (finalCell timeNow ops Cached.zero w)
      (finalWorld timeNow ops Cached.zero w)).trace).Pairwise (fun a b => a ≤ b) := by
    simpa [run, history] using hmono.2.1
  have hadd := le_Add_defaultInterval (finalCell timeNow ops Cached.zero w).lastFetch
  rcases exec_advance timeNow op (finalCell timeNow ops Cached.zero w)
      (finalWorld timeNow ops Cached.zero w) hop with ⟨-, hl⟩ | ⟨-, hl, -⟩
  · simp only [finalCell]; rw [hl]
  · simp only [finalCell]; omega

/-- C13 at a concrete input: a fetch recorded at `7s`, then a failing refetch
decided at `13s` and `14s` and recorded at `15s`. -/
theorem lastFetch_monotone_witness :
    (finalCell (scripted [6000000000, 6000000000, 7000000000, 13000000000, 14000000000,
        15000000000])
      [Op.get (constFetcher none (some 3))] (Cached.zero : Cached Nat Nat) 0).lastFetch ≤
    (finalCell (scripted [6000000000, 6000000000, 7000000000, 13000000000, 14000000000,
        15000000000])
      ([Op.get (constFetcher none (some 3))] ++ [Op.get (constFetcher none (some 4))])
      (Cached.zero : Cached Nat Nat) 0).lastFetch :=
  lastFetch_monotone
    (scripted [6000000000, 6000000000, 7000000000, 13000000000, 14000000000, 15000000000])
    [Op.get (constFetcher none (some 3))] (Op.get (constFetcher none (some 4))) 0 (by decide)

/-! ## Calls that do not fetch -/

/-- C14: a `Get` that does not invoke the fetcher, `needsFetch` being false at
the check under the shared lock or at the re-check under the exclusive lock,
leaves `fetched`, `lastFetch`, `val` and `err` unchanged and returns exactly the
stored pair, and does the same whichever fetcher is passed. -/
theorem Get_without_fetch {σ V E : Type} (timeNow : Clock σ) (c : Cached V E)
    (fn : Fetcher σ V E) (w : σ)
    (h : (needsFetch timeNow c w).needed = false ∨
      (needsFetch timeNow c (needsFetch timeNow c w).world).needed = false) :
    (Get timeNow c fn w).cell = c ∧
    ((Get timeNow c fn w).val, (Get timeNow c fn w).err) = (c.val, c.err) ∧
    fetches (Get timeNow c fn w).trace = [] ∧
    ∀ fn2 : Fetcher σ V E, Get timeNow c fn2 w = Get timeNow c fn w := by
  cases h1 : (needsFetch timeNow c w).needed with
  | false =>
    refine ⟨by simp [Get, h1], by simp [Get, h1], ?_, fun fn2 => by simp [Get, h1]⟩
    simp only [Get, h1]
    cases hf : c.fetched <;> simp [needsFetch, hf, fetches]
  | true =>
    rw [h1] at h
    have h2 : (needsFetch timeNow c (needsFetch timeNow c w).world).needed = false := by
      simpa using h
    refine ⟨by simp [Get, getExclusive, h1, h2], by simp [Get, getExclusive, h1, h2], ?_,
      fun fn2 => by simp [Get, getExclusive, h1, h2]⟩
    simp only [Get, getExclusive, h1, h2]
    cases hf : c.fetched <;> simp [needsFetch, hf, fetches, fetches_append]

/-- C14 at a concrete input: a cell holding a failure recorded at `100s`, and a
`Get` at `103s`. -/
theorem Get_without_fetch_witness :
    (Get (pinned 103000000000)
      ({ fetched := false, lastFetch := 100000000000, val := none, err := some 3 } :
        Cached Nat Nat)
      (constFetcher (some 7) none) ()).cell =
      { fetched := false, lastFetch := 100000000000, val := none, err := some 3 } :=
  (Get_without_fetch (pinned 103000000000)
    ({ fetched := false, lastFetch := 100000000000, val := none, err := some 3 } :
      Cached Nat Nat)
    (constFetcher (some 7) none) () (Or.inl (by decide))).1

/-! ## Reset twice, and Reset of an unfetched cell -/

/-- C17: `Reset` followed by `Reset` gives the same state as one `Reset`; on a
cell with `fetched = false` `Reset` changes nothing, so that every later
sequence of calls does and returns the same with or without it; the cell left
by a failed fetch is such a cell. -/
theorem Reset_idempotent {σ V E : Type} (timeNow : Clock σ) (c : Cached V E) :
    Reset (Reset c) = Reset c ∧
    (c.fetched = false → Reset c = c) ∧
    (c.fetched = false → ∀ (ops : List (Op σ V E)) (w : σ),
      run timeNow ops (exec timeNow Op.reset c w).cell (exec timeNow Op.reset c w).world =
        run timeNow ops c w) ∧
    (∀ (fn : Fetcher σ V E) (w : σ) (v : Option V) (e : E),
      fetches (Get timeNow c fn w).trace = [(v, some e)] →
      Reset (Get timeNow c fn w).cell = (Get timeNow c fn w).cell) := by
  have hid : ∀ d : Cached V E, d.fetched = false → Reset d = d := by
    intro d hd
    cases d
    simp_all [Reset]
  refine ⟨rfl, hid c, ?_, ?_⟩
  · intro hf ops w
    simp only [exec]
    rw [hid c hf]
  · intro fn w v e h
    apply hid
    revert h
    refine Get_elim timeNow c fn w
      (fun g => fetches g.trace = [(v, some e)] → g.cell.fetched = false) ?_ ?_ ?_ ?_
    · intro _ h; simp [fetches] at h
    · intro _ _ h; simp [fetches] at h
    · intro _ _ _ h; simp [fetches] at h
    · intro _ _ _ h
      simp only [fetches, List.cons.injEq, and_true] at h
      have he := congrArg Prod.snd h
      simp only at he
      simp [he]

/-- C17 at a concrete input: a cell holding a failure recorded at `100s`. -/
theorem Reset_idempotent_witness :
    Reset ({ fetched := false, lastFetch := 100000000000, val := none, err := some 3 } :
      Cached Nat Nat) =
      { fetched := false, lastFetch := 100000000000, val := none, err := some 3 } :=
  (Reset_idempotent (pinned 0)
    ({ fetched := false, lastFetch := 100000000000, val := none, err := some 3 } :
      Cached Nat Nat)).2.1 rfl

/-! ## The re-check under the exclusive lock -/

/-- The exclusive part of `Get` on a fetched cell returns the stored pair and
touches nothing. -/
theorem getExclusive_fetched {σ V E : Type} (timeNow : Clock σ) (c : Cached V E)
    (fn : Fetcher σ V E) (w : σ) (h : c.fetched = true) :
    getExclusive timeNow c fn w =
      { val := c.val, err := c.err, cell := c, world := w, trace := [] } := by
  simp [getExclusive, needsFetch_fetched timeNow c w h]

/-- The exclusive part of `Get` that ran the fetcher with a nil error leaves a
fetched cell holding the fetcher's value and no error. -/
theorem getExclusive_success {σ V E : Type} (timeNow : Clock σ) (c : Cached V E)
    (fn : Fetcher σ V E) (w : σ) (v : Option V)
    (h : fetches (getExclusive timeNow c fn w).trace = [(v, none)]) :
    (getExclusive timeNow c fn w).cell.fetched = true ∧
    (getExclusive timeNow c fn w).cell.val = v ∧
    (getExclusive timeNow c fn w).cell.err = none := by
  cases hn : (needsFetch timeNow c w).needed with
  | false =>
    simp only [getExclusive, hn] at h
    cases hf : c.fetched <;> simp [needsFetch, hf, fetches] at h
  | true =>
    simp only [getExclusive, hn, fetches_append] at h ⊢
    cases hf : c.fetched with
    | true => simp [needsFetch, hf] at hn
    | false =>
      simp only [needsFetch, hf, fetches] at h
      simp only [Bool.false_eq_true, ↓reduceIte, List.nil_append, List.cons.injEq,
        and_true] at h
      have hv := congrArg Prod.fst h
      have he := congrArg Prod.snd h
      simp only at hv he
      simp [needsFetch, hf, hv, he]

/-- Critical sections other than `Reset` leave a fetched cell as it is. -/
theorem runPhases_fetched {σ V E : Type} (timeNow : Clock σ) (ps : List (Phase σ V E)) :
    ∀ (c : Cached V E) (w : σ), c.fetched = true → (∀ p ∈ ps, p.isReset = false) →
      (runPhases timeNow ps c w).1 = c := by
  induction ps with
  | nil => intro c w _ _; rfl
  | cons p ps ih =>
    intro c w hc hps
    have hp := hps p (List.mem_cons_self _ _)
    have hrest : ∀ q ∈ ps, q.isReset = false := fun q hq => hps q (List.mem_cons_of_mem _ hq)
    cases p with
    | reset => simp [Phase.isReset] at hp
    | shared =>
      simp only [runPhases, execPhase]
      exact ih c _ hc hrest
    | exclusive fn =>
      simp only [runPhases, execPhase, getExclusive_fetched timeNow c fn w hc]
      exact ih c _ hc hrest

/-- C16: with `Get` as two critical sections between which those of other
callers run: if the first check of a `Get` found `needsFetch` true, and between
its two sections a peer's exclusive section fetched successfully, getting
`(v, nil)`, and no `Reset` followed it, then the second section does not invoke
the fetcher, whatever the clock reads, and returns `(v, nil)`. -/
theorem recheck_sees_peer_fetch {σ V E : Type} (timeNow : Clock σ) (c : Cached V E) (w : σ)
    (fn fnPeer : Fetcher σ V E) (before after : List (Phase σ V E)) (v : Option V)
    (_hfirst : (needsFetch timeNow c w).needed = true)
    (hpeer : fetches (execPhase timeNow (Phase.exclusive fnPeer)
        (runPhases timeNow before c (needsFetch timeNow c w).world).1
        (runPhases timeNow before c (needsFetch timeNow c w).world).2).trace = [(v, none)])
    (hafter : ∀ p ∈ after, p.isReset = false) :
    fetches (getExclusive timeNow
      (runPhases timeNow (before ++ Phase.exclusive fnPeer :: after) c
        (needsFetch timeNow c w).world).1 fn
      (runPhases timeNow (before ++ Phase.exclusive fnPeer :: after) c
        (needsFetch timeNow c w).world).2).trace = [] ∧
    ((getExclusive timeNow
      (runPhases timeNow (before ++ Phase.exclusive fnPeer :: after) c
        (needsFetch timeNow c w).world).1 fn
      (runPhases timeNow (before ++ Phase.exclusive fnPeer :: after) c
        (needsFetch timeNow c w).world).2).val,
     (getExclusive timeNow
      (runPhases timeNow (before ++ Phase.exclusive fnPeer :: after) c
        (needsFetch timeNow c w).world).1 fn
      (runPhases timeNow (before ++ Phase.exclusive fnPeer :: after) c
        (needsFetch timeNow c w).world).2).err) = (v, none) := by
  have happ : ∀ (a b : List (Phase σ V E)) (d : Cached V E) (u : σ),
      runPhases timeNow (a ++ b) d u =
        runPhases timeNow b (runPhases timeNow a d u).1 (runPhases timeNow a d u).2 := by
    intro a
    induction a with
    | nil => intro b d u; rfl
    | cons p ps ih => intro b d u; simp [runPhases, ih]
  simp only [execPhase] at hpeer
  obtain ⟨hf, hv, he⟩ := getExclusive_success timeNow _ fnPeer _ v hpeer
  have hcell := runPhases_fetched timeNow after _
    (execPhase timeNow (Phase.exclusive fnPeer)
      (runPhases timeNow before c (needsFetch timeNow c w).world).1
      (runPhases timeNow before c (needsFetch timeNow c w).world).2).world hf hafter
  rw [happ]
  simp only [runPhases]
  simp only [execPhase] at hcell ⊢
  have hfin : (runPhases timeNow after
      (getExclusive timeNow (runPhases timeNow before c (needsFetch timeNow c w).world).1 fnPeer
        (runPhases timeNow before c (needsFetch timeNow c w).world).2).cell
      (getExclusive timeNow (runPhases timeNow before c (needsFetch timeNow c w).world).1 fnPeer
        (runPhases timeNow before c (needsFetch timeNow c w).world).2).world).1.fetched = true := by
    rw [hcell]; exact hf
  rw [getExclusive_fetched timeNow _ fn _ hfin]
  simp only [hcell, hv, he, fetches, and_self]

/-- C16 at a concrete input: the first check at `6s` finds `needsFetch` true; a
peer fetches `7` successfully, then another caller runs its first check. -/
theorem recheck_sees_peer_fetch_witness :
    fetches (getExclusive (scripted [6000000000, 6000000000, 6000000000])
      (runPhases (scripted [6000000000, 6000000000, 6000000000])
        ([] ++ Phase.exclusive (constFetcher (some 7) none) :: [Phase.shared])
        (Cached.zero : Cached Nat Nat)
        (needsFetch (scripted [6000000000, 6000000000, 6000000000])
          (Cached.zero : Cached Nat Nat) 0).world).1
      (constFetcher (some 8) none)
      (runPhases (scripted [6000000000, 6000000000, 6000000000])
        ([] ++ Phase.exclusive (constFetcher (some 7) none) :: [Phase.shared])
        (Cached.zero : Cached Nat Nat)
        (needsFetch (scripted [6000000000, 6000000000, 6000000000])
          (Cached.zero : Cached Nat Nat) 0).world).2).trace = [] :=
  (recheck_sees_peer_fetch (scripted [6000000000, 6000000000, 6000000000])
    (Cached.zero : Cached Nat Nat) 0 (constFetcher (some 8) none)
    (constFetcher (some 7) none) [] [Phase.shared] (some 7) (by decide) (by decide)
    (by decide)).1

/-! ## No two fetchers at once -/

/-- A move that neither takes nor releases the write lock keeps `oneWriter`. -/
theorem oneWriter_keep {ι σ V E : Type} [DecidableEq ι] (s : Sys ι σ V E) (i : ι)
    (pc : Pc σ V E) (cell : Cached V E) (readers : Nat) (world : σ)
    (hpc : pc.holdsW = (s.pcs i).holdsW) (h : s.oneWriter) :
    Sys.oneWriter { cell := cell, readers := readers, writer := s.writer, world := world
                    pcs := Function.update s.pcs i pc } := by
  have hw : ∀ j, (Function.update s.pcs i pc j).holdsW = (s.pcs j).holdsW := by
    intro j
    by_cases hj : j = i
    · subst hj; simp [hpc]
    · simp [Function.update_noteq hj]
  refine ⟨?_, ?_⟩
  · intro a b ha hb
    simp only [hw] at ha hb
    exact h.1 a b ha hb
  · intro a ha
    simp only [hw] at ha
    exact h.2 a ha

/-- Taking the free write lock keeps `oneWriter`. -/
theorem oneWriter_lock {ι σ V E : Type} [DecidableEq ι] (s : Sys ι σ V E) (i : ι)
    (pc : Pc σ V E) (cell : Cached V E) (readers : Nat) (world : σ)
    (hfree : s.writer = false) (h : s.oneWriter) :
    Sys.oneWriter { cell := cell, readers := readers, writer := true, world := world
                    pcs := Function.update s.pcs i pc } := by
  have hnone : ∀ j, (s.pcs j).holdsW = true → False := by
    intro j hj
    have := h.2 j hj
    rw [hfree] at this
    cases this
  have hi : ∀ j, (Function.update s.pcs i pc j).holdsW = true → j = i := by
    intro j hj
    by_contra hne
    rw [Function.update_noteq hne] at hj
    exact hnone j hj
  exact ⟨fun a b ha hb => (hi a ha).trans (hi b hb).symm, fun _ _ => rfl⟩

/-- Releasing the write lock keeps `oneWriter`. -/
theorem oneWriter_unlock {ι σ V E : Type} [DecidableEq ι] (s : Sys ι σ V E) (i : ι)
    (pc : Pc σ V E) (cell : Cached V E) (readers : Nat) (writer : Bool) (world : σ)
    (hheld : (s.pcs i).holdsW = true) (hpc : pc.holdsW = false) (h : s.oneWriter) :
    Sys.oneWriter { cell := cell, readers := readers, writer := writer, world := world
                    pcs := Function.update s.pcs i pc } := by
  have hnone : ∀ j, (Function.update s.pcs i pc j).holdsW = true → False := by
    intro j hj
    by_cases hne : j = i
    · subst hne
      simp [hpc] at hj
    · rw [Function.update_noteq hne] at hj
      exact hne (h.1 j i hj hheld)
  exact ⟨fun a _ ha _ => (hnone a ha).elim, fun a ha => (hnone a ha).elim⟩

/-- Every move keeps `oneWriter`. -/
theorem step_oneWriter {ι σ V E : Type} [DecidableEq ι] (timeNow : Clock σ) (s : Sys ι σ V E)
    (i : ι) (next : Op σ V E) (h : s.oneWriter) : (step timeNow s i next).oneWriter := by
  unfold step
  split
  · split
    · exact oneWriter_keep s i _ _ _ _ (by simp [Pc.holdsW, *]) h
    · exact oneWriter_keep s i _ _ _ _ (by simp [Pc.holdsW, *]) h
  · split
    · exact h
    · exact oneWriter_keep s i _ _ _ _ (by simp [Pc.holdsW, *]) h
  · exact oneWriter_keep s i _ _ _ _ (by split <;> simp [Pc.holdsW, *]) h
  · exact oneWriter_keep s i _ _ _ _ (by simp [Pc.holdsW, *]) h
  · split
    · exact h
    · rename_i hfree
      have hfree2 : s.writer = false ∧ s.readers = 0 := by simpa using hfree
      exact oneWriter_lock s i _ _ _ _ hfree2.1 h
  · exact oneWriter_keep s i _ _ _ _ (by split <;> simp [Pc.holdsW, *]) h
  · exact oneWriter_keep s i _ _ _ _ (by simp [Pc.holdsW, *]) h
  · exact oneWriter_keep s i _ _ _ _ (by simp [Pc.holdsW, *]) h
  · exact oneWriter_keep s i _ _ _ _ (by simp [Pc.holdsW, *]) h
  · exact oneWriter_keep s i _ _ _ _ (by simp [Pc.holdsW, *]) h
  · exact oneWriter_keep s i _ _ _ _ (by simp [Pc.holdsW, *]) h
  · exact oneWriter_unlock s i _ _ _ _ _ (by simp [Pc.holdsW, *]) rfl h
  · exact oneWriter_keep s i _ _ _ _ (by simp [Pc.holdsW, *]) h
  · exact oneWriter_keep s i _ _ _ _ (by simp [Pc.holdsW, *]) h
  · split
    · exact h
    · rename_i hfree
      have hfree2 : s.writer = false ∧ s.readers = 0 := by simpa using hfree
      exact oneWriter_lock s i _ _ _ _ hfree2.1 h
  · exact oneWriter_keep s i _ _ _ _ (by simp [Pc.holdsW, *]) h
  · exact oneWriter_unlock s i _ _ _ _ _ (by simp [Pc.holdsW, *]) rfl h

/-- Every schedule keeps `oneWriter`. -/
theorem runGo_oneWriter {ι σ V E : Type} [DecidableEq ι] (timeNow : Clock σ)
    (ms : List (ι × Op σ V E)) :
    ∀ s : Sys ι σ V E, s.oneWriter → (runGo timeNow ms s).oneWriter := by
  induction ms with
  | nil => intro s h; exact h
  | cons m ms ih => intro s h; exact ih _ (step_oneWriter timeNow s m.1 m.2 h)

theorem holdsW_of_inFetcher {σ V E : Type} (pc : Pc σ V E) (h : pc.inFetcher = true) :
    pc.holdsW = true := by
  cases pc <;> simp [Pc.inFetcher, Pc.holdsW] at h ⊢

/-- C15: for any number of goroutines calling `Get` and `Reset` on one cell,
under every schedule, no two goroutines are inside a fetcher at the same time,
and a goroutine inside a fetcher holds the write lock of the cell: the mutex is
write-locked, the goroutine is between its `Lock()` and its `Unlock()`, and no
other goroutine is. -/
theorem fetchers_never_overlap {ι σ V E : Type} [DecidableEq ι] (timeNow : Clock σ)
    (c : Cached V E) (w : σ) (ms : List (ι × Op σ V E)) :
    (∀ i j, ((runGo timeNow ms (Sys.init c w)).pcs i).inFetcher = true →
      ((runGo timeNow ms (Sys.init c w)).pcs j).inFetcher = true → i = j) ∧
    (∀ i, ((runGo timeNow ms (Sys.init c w)).pcs i).inFetcher = true →
      (runGo timeNow ms (Sys.init c w)).writer = true ∧
      ((runGo timeNow ms (Sys.init c w)).pcs i).holdsW = true ∧
      ∀ j, ((runGo timeNow ms (Sys.init c w)).pcs j).holdsW = true → j = i) := by
  have h0 : (Sys.init c w : Sys ι σ V E).oneWriter :=
    ⟨fun i _ hi _ => by simp [Sys.init, Pc.holdsW] at hi,
      fun i hi => by simp [Sys.init, Pc.holdsW] at hi⟩
  have h := runGo_oneWriter timeNow ms (Sys.init c w) h0
  refine ⟨?_, ?_⟩
  · intro i j hi hj
    exact h.1 i j (holdsW_of_inFetcher _ hi) (holdsW_of_inFetcher _ hj)
  · intro i hi
    have hw := holdsW_of_inFetcher _ hi
    exact ⟨h.2 i hw, hw, fun j hj => h.1 j i hj hw⟩

/-- C15 at a concrete input: goroutine `0` calls `Get` on a zero cell under a
clock pinned at `6s` and has entered its fetcher; goroutine `1` has called
`Get` and waits at `RLock()`. The mutex is write-locked. -/
theorem fetchers_never_overlap_witness :
    (runGo (pinned 6000000000)
      [(0, Op.get (constFetcher (some 7) none)), (0, Op.reset), (0, Op.reset), (0, Op.reset),
        (0, Op.reset), (0, Op.reset), (0, Op.reset),
        (1, Op.get (constFetcher (some 8) none)), (1, Op.reset), (1, Op.reset)]
      (Sys.init (Cached.zero : Cached Nat Nat) () : Sys Nat Unit Nat Nat)).writer = true :=
  ((fetchers_never_overlap (pinned 6000000000) (Cached.zero : Cached Nat Nat) ()
    [(0, Op.get (constFetcher (some 7) none)), (0, Op.reset), (0, Op.reset), (0, Op.reset),
      (0, Op.reset), (0, Op.reset), (0, Op.reset),
      (1, Op.get (constFetcher (some 8) none)), (1, Op.reset), (1, Op.reset)]).2 0
    (by decide)).1

end Sync2
